import Mathlib

/-!
A verification development for the cgadimpl automatic-differentiation core.

The C++ sources (`checkpoint.cpp`, `tracer.cpp`, `autodiff.cpp`, `tracer.hpp`,
`debug.hpp`) are shallowly embedded below.  Nodes live in a `Graph`, which is a
list of `Node` records indexed by creation order; a C++ `shared_ptr<Node>` is
modelled as a `Nat` index (a null pointer as `none` in `Option Nat`).  The
external collaborators (the tensor library, `forward_eval_node`, the VJP/JVP
rule tables, and `topo_from`) are not part of the embedded sources; they are
passed as parameters so every theorem quantifies over them, or are modelled
from the spec where noted.  Recursive graph walks take an explicit fuel
argument; the C++ walks terminate because graphs are finite DAGs, and fuel
plays the role of that termination measure.  Mutation of nodes is modelled by
returning an updated `Graph`.
-/

namespace ag

/-- Modelled from the spec: the tensor library is external to the repository.
A dense 2-D tensor with `rows()`, `cols()`; the default-constructed
`Tensor()` is the 0x0 empty sentinel.  Element contents are irrelevant to the
embedded control flow, but are kept so that copies and zero/one fills are
meaningful. -/
structure Tensor where
  rows : Nat
  cols : Nat
  entries : List Int
deriving DecidableEq, Repr, Inhabited

/-- The empty sentinel `Tensor()`. -/
def Tensor.empty : Tensor := ⟨0, 0, []⟩

/-- Modelled from the spec: `numel()` is the element count of the tensor. -/
def Tensor.numel (t : Tensor) : Nat := t.rows * t.cols

/-- Modelled from the spec: `size()` is used by the core both as a truthiness
test (`size() != 0` means non-empty) and compared against `1` for scalar
detection, so it is the element count. -/
def Tensor.size (t : Tensor) : Nat := t.rows * t.cols

/-- Modelled from the spec: `zeros_like`. -/
def Tensor.zeros_like (t : Tensor) : Tensor :=
  ⟨t.rows, t.cols, List.replicate (t.rows * t.cols) 0⟩

/-- Modelled from the spec: `ones(r, c)`. -/
def Tensor.ones (r c : Nat) : Tensor := ⟨r, c, List.replicate (r * c) 1⟩

/-- Modelled from the spec: `ones_like`. -/
def Tensor.ones_like (t : Tensor) : Tensor :=
  ⟨t.rows, t.cols, List.replicate (t.rows * t.cols) 1⟩

/-- Every entry of the tensor is zero (vacuously true for the empty sentinel). -/
def Tensor.isZero (t : Tensor) : Bool := t.entries.all (fun x => x == 0)

/-- The C++ `Value` wraps a `shared_ptr<Node>`; here it holds an optional node
index.  `Value()` is `⟨none⟩`. -/
structure Value where
  node : Option Nat
deriving DecidableEq, Repr, Inhabited

/-- The graph node, with the fields the embedded sources read and write.
`inputs` holds optional indices (a null `shared_ptr` input is `none`). -/
structure Node where
  op : Nat
  inputs : List (Option Nat)
  value : Tensor
  grad : Tensor
  requires_grad : Bool
  is_checkpoint : Bool
  saved_input_tensors : List Tensor
  saved_inputs : List Value
  has_saved_rng : Bool
  saved_rng_blob : List Nat
  tape : List Tensor
deriving DecidableEq, Repr, Inhabited

/-- The dataflow graph: nodes indexed by creation order. -/
structure Graph where
  nodes : List Node
deriving DecidableEq, Repr, Inhabited

/-- Dereference a node index; `none` both for the null pointer and for an
index outside the graph (which cannot arise from real `shared_ptr`s). -/
def Graph.node? (g : Graph) (i : Nat) : Option Node := g.nodes[i]?

/-- Write back a mutated node (in-place mutation in the C++). -/
def Graph.setNode (g : Graph) (i : Nat) (nd : Node) : Graph := ⟨g.nodes.set i nd⟩

def Graph.len (g : Graph) : Nat := g.nodes.length

/-- `CheckpointOptions`, with its single `save_rng` flag. -/
structure CheckpointOptions where
  save_rng : Bool
deriving DecidableEq, Repr, Inhabited

/-- `save_rng_state()` in checkpoint.cpp is a stub returning an empty blob. -/
def save_rng_state : List Nat := []

/-- The external `forward_eval_node`: a result of `none` models the evaluator
throwing an exception. -/
abbrev FEval := Graph → Nat → Option Tensor

/-- Embedding of `mark_node_checkpoint` (checkpoint.cpp).  Returns early for a
null node or an already-marked node; otherwise sets `is_checkpoint`, refills
`saved_input_tensors` with copies of currently-available parent values, pushes
one placeholder `Value` per input into `saved_inputs` (an empty `Value` in
both branches of the source), and handles the RNG option (the `else` branch
only clears `has_saved_rng`, leaving any old blob in place, as the source
does).  `markedNode` is the node record the marking writes back. -/
def markedNode (g : Graph) (nd : Node) (opts : CheckpointOptions) : Node :=
  let pairs := nd.inputs.map (fun pOpt =>
    match pOpt with
    | some p =>
      match g.node? p with
      | some pnd =>
        if pnd.value.size ≠ 0 then (pnd.value, Value.mk none)
        else (Tensor.empty, Value.mk none)
      | none => (Tensor.empty, Value.mk none)
    | none => (Tensor.empty, Value.mk none))
  let nd1 := { nd with
    is_checkpoint := true
    saved_input_tensors := pairs.map Prod.fst
    saved_inputs := pairs.map Prod.snd }
  if opts.save_rng then
    { nd1 with saved_rng_blob := save_rng_state, has_saved_rng := true }
  else
    { nd1 with has_saved_rng := false }

/-- Embedding of `mark_node_checkpoint` proper: early return for a null node
or an already-marked node, otherwise write back `markedNode`. -/
def mark_node_checkpoint (g : Graph) (i : Nat) (opts : CheckpointOptions) : Graph :=
  match g.node? i with
  | none => g
  | some nd =>
    if nd.is_checkpoint then g
    else g.setNode i (markedNode g nd opts)

/-- The loop body of `compute_forward_values` for one node of the walk: a
null node is skipped, an already-computed node is skipped, otherwise the
forward evaluator runs and its result is stored; an evaluator exception
(`feval _ _ = none`) is caught and the node is left as it was. -/
def cfv_step (feval : FEval) (g1 : Graph) (i : Nat) : Graph :=
  match g1.node? i with
  | none => g1
  | some nd =>
    if nd.value.size ≠ 0 then g1
    else
      match feval g1 i with
      | some t => g1.setNode i { nd with value := t }
      | none => g1

/-- Embedding of `compute_forward_values` (checkpoint.cpp).  The walk order is
the one produced by `topo_from`, whose implementation is outside the embedded
sources; it is passed as a parameter, so the theorems hold for every order. -/
def compute_forward_values (feval : FEval) (order : List Nat) (g : Graph) : Graph :=
  order.foldl (cfv_step feval) g

/-- Embedding of `capture_checkpoint_snapshots` (checkpoint.cpp): for every
checkpoint node in the walk order, overwrite `saved_input_tensors` with fresh
copies of the parents' current values (`Tensor()` where a parent is null or
empty).  `saved_inputs` is never touched. -/
def capture_step (g1 : Graph) (i : Nat) : Graph :=
  match g1.node? i with
  | none => g1
  | some nd =>
    if nd.is_checkpoint = false then g1
    else
      let snaps := nd.inputs.map (fun pOpt =>
        match pOpt with
        | none => Tensor.empty
        | some p =>
          match g1.node? p with
          | some pnd => if pnd.value.size ≠ 0 then pnd.value else Tensor.empty
          | none => Tensor.empty)
      g1.setNode i { nd with saved_input_tensors := snaps }

/-- Embedding of `capture_checkpoint_snapshots` proper: one `capture_step`
per node of the walk order. -/
def capture_checkpoint_snapshots (order : List Nat) (g : Graph) : Graph :=
  order.foldl capture_step g

/-- Embedding of `recompute_subgraph` (checkpoint.cpp).  Fails (`false`) for a
null node, a non-checkpoint, or empty `saved_inputs`.  The RNG restore is the
source's no-op stub.  The slot loop runs over
`i < min (saved_inputs.size, inputs.size)`; a slot whose saved handle holds a
node restores that node's current value into the parent, otherwise an empty
parent is recursively recomputed when it is itself a checkpoint and is a
failure when it is not.  The inner `Except Graph Graph` mirrors the C++
early `return false`, keeping the mutations made so far.  Finally the node's
own forward value is recomputed (`none` models the evaluator throwing).
The loop body is split out as `rc_slot_step`, taking the recursive call as a
parameter. -/
def rc_slot_step (rec : Graph → Nat → Bool × Graph) (nd : Node) (g1 : Graph) (k : Nat) :
    Except Graph Graph :=
  match nd.saved_inputs[k]?, nd.inputs[k]? with
  | some sv, some (some p) =>
    (match sv.node with
     | some sid =>
       (match g1.node? p, g1.node? sid with
        | some pnd, some snd => Except.ok (g1.setNode p { pnd with value := snd.value })
        | _, _ => Except.ok g1)
     | none =>
       (match g1.node? p with
        | none => Except.ok g1
        | some pnd =>
          if pnd.value.size = 0 then
            if pnd.is_checkpoint then
              match rec g1 p with
              | (true, g2) => Except.ok g2
              | (false, g2) => Except.error g2
            else Except.error g1
          else Except.ok g1))
  | some _, some none => Except.ok g1
  | _, _ => Except.ok g1

/-- Embedding of `recompute_subgraph` proper; see `rc_slot_step` for the loop
body over the input slots. -/
def recompute_subgraph (feval : FEval) : Nat → Graph → Nat → Bool × Graph
  | 0, g, _ => (false, g)
  | fuel+1, g, i =>
    match g.node? i with
    | none => (false, g)
    | some nd =>
      if nd.is_checkpoint = false then (false, g)
      else if nd.saved_inputs.isEmpty then (false, g)
      else
        let slots := List.range (min nd.saved_inputs.length nd.inputs.length)
        match slots.foldlM (rc_slot_step (recompute_subgraph feval fuel) nd) g with
        | Except.error g1 => (false, g1)
        | Except.ok g1 =>
          match feval g1 i with
          | some t =>
            match g1.node? i with
            | some nd1 => (true, g1.setNode i { nd1 with value := t })
            | none => (true, g1)
          | none => (false, g1)

/-- Phase 1 of `evict_non_checkpoint_values`: BFS from the root collecting the
protected set.  Every visited node is protected; descent stops at checkpoint
nodes.  The C++ deque (`push_back` / `pop_front`) is the FIFO queue list;
`none` models fuel exhaustion, which cannot occur in the C++ because graphs
are finite. -/
def protect_phase (g : Graph) : Nat → List Nat → List Nat → Option (List Nat)
  | 0, _, _ => none
  | _fuel+1, [], prot => some prot
  | fuel+1, n :: rest, prot =>
    if n ∈ prot then protect_phase g fuel rest prot
    else
      match g.node? n with
      | none => protect_phase g fuel rest prot
      | some nd =>
        if nd.is_checkpoint then protect_phase g fuel rest (n :: prot)
        else protect_phase g fuel (rest ++ nd.inputs.filterMap id) (n :: prot)

/-- Phase 2 of `evict_non_checkpoint_values`: BFS over the entire reachable
graph; every node not in the protected set has its value set to `Tensor()`
and its tape cleared.  Returns the mutated graph and the visited set. -/
def sweep_phase (prot : List Nat) : Nat → Graph → List Nat → List Nat → Option (Graph × List Nat)
  | 0, _, _, _ => none
  | _fuel+1, g, [], seen => some (g, seen)
  | fuel+1, g, n :: rest, seen =>
    if n ∈ seen then sweep_phase prot fuel g rest seen
    else
      match g.node? n with
      | none => sweep_phase prot fuel g rest seen
      | some nd =>
        let g1 :=
          if n ∈ prot then g
          else g.setNode n { nd with value := Tensor.empty, tape := [] }
        sweep_phase prot fuel g1 (rest ++ nd.inputs.filterMap id) (n :: seen)

/-- Embedding of `evict_non_checkpoint_values` (checkpoint.cpp): protect via
BFS from the root stopping at checkpoints, then sweep the whole reachable
graph clearing unprotected values and tapes. -/
def evict_non_checkpoint_values (fuel : Nat) (g : Graph) (root : Nat) : Option Graph :=
  match g.node? root with
  | none => some g
  | some _ =>
    match protect_phase g fuel [root] [] with
    | none => none
    | some prot =>
      match sweep_phase prot fuel g [root] [] with
      | none => none
      | some (g1, _) => some g1

/-- The external VJP rule `fn(n, gy)`: it reads the node and the upstream
gradient and accumulates into the parents' grads by mutating the graph; an
`error` models the rule throwing. -/
abbrev VjpFn := Graph → Nat → Tensor → Except String Graph

/-- The external JVP rule `fn(n, tangent_of)`: it reads the node and a lookup
closure returning parents' tangents, and returns the node's tangent. -/
abbrev JvpFn := Graph → Nat → (Nat → Tensor) → Tensor

/-- The error kinds `backward` (autodiff.cpp) throws; each carries the node
identities interpolated into the corresponding `runtime_error` message. -/
inductive BackError where
  | recomputeNodeFailed : Nat → BackError
  | recomputeParentFailed : (parent : Nat) → (consumer : Nat) → BackError
  | parentMissing : (parent : Nat) → (consumer : Nat) → BackError
  | vjpException : Nat → String → BackError
deriving DecidableEq, Repr

/-- The non-fatal diagnostics `backward` writes to stderr. -/
inductive BWarn where
  | noVjp : Nat → BWarn
deriving DecidableEq, Repr

/-- Step b of the backward loop body: if the node is a checkpoint with an
empty value, recompute it, and fail hard when recomputation fails. -/
def bw_recompute_self (feval : FEval) (fuel : Nat) (g : Graph) (n : Nat) (nd : Node) :
    Except BackError Graph :=
  if nd.is_checkpoint ∧ nd.value.size = 0 then
    match recompute_subgraph feval fuel g n with
    | (true, g1) => Except.ok g1
    | (false, _) => Except.error (BackError.recomputeNodeFailed n)
  else Except.ok g

/-- Step c of the backward loop body: scan the node's parents in order; a null
parent is skipped; an empty checkpointed parent is recomputed (fatal error on
failure, naming the parent and the consumer); an empty non-checkpointed
parent is a fatal error naming the parent and the consumer. -/
def bw_check_parents (feval : FEval) (fuel : Nat) (n : Nat) :
    Graph → List (Option Nat) → Except BackError Graph
  | g, [] => Except.ok g
  | g, none :: rest => bw_check_parents feval fuel n g rest
  | g, some p :: rest =>
    match g.node? p with
    | none => bw_check_parents feval fuel n g rest
    | some pnd =>
      if pnd.value.numel = 0 then
        if pnd.is_checkpoint then
          match recompute_subgraph feval fuel g p with
          | (true, g1) => bw_check_parents feval fuel n g1 rest
          | (false, _) => Except.error (BackError.recomputeParentFailed p n)
        else Except.error (BackError.parentMissing p n)
      else bw_check_parents feval fuel n g rest

/-- One iteration of the reverse-topological walk of `backward` for node `n`:
skip null or non-`requires_grad` nodes; read `gy`; recompute self if needed;
check parents; look up the VJP rule (warn and skip when absent); invoke the
rule, wrapping an exception with the node's identity. -/
def backward_step (vjpL : Nat → Option VjpFn) (feval : FEval) (fuel : Nat)
    (g : Graph) (n : Nat) : Except BackError (Graph × Option BWarn) :=
  match g.node? n with
  | none => Except.ok (g, none)
  | some nd =>
    if nd.requires_grad = false then Except.ok (g, none)
    else
      let gy := nd.grad
      match bw_recompute_self feval fuel g n nd with
      | Except.error e => Except.error e
      | Except.ok g1 =>
        match bw_check_parents feval fuel n g1 nd.inputs with
        | Except.error e => Except.error e
        | Except.ok g2 =>
          match vjpL nd.op with
          | none => Except.ok (g2, some (BWarn.noVjp n))
          | some fn =>
            match fn g2 n gy with
            | Except.ok g3 => Except.ok (g3, none)
            | Except.error msg => Except.error (BackError.vjpException n msg)

/-- The walk of `backward` over the reversed topological order, accumulating
the warnings emitted along the way.  A fatal error aborts the walk. -/
def backward_loop (vjpL : Nat → Option VjpFn) (feval : FEval) (fuel : Nat) :
    Graph → List Nat → Except BackError (Graph × List BWarn)
  | g, [] => Except.ok (g, [])
  | g, n :: rest =>
    match backward_step vjpL feval fuel g n with
    | Except.error e => Except.error e
    | Except.ok (g1, w) =>
      match backward_loop vjpL feval fuel g1 rest with
      | Except.error e => Except.error e
      | Except.ok (g2, ws) => Except.ok (g2, w.toList ++ ws)

/-- Seed step of `backward` (autodiff.cpp): if the root requires grad, its
grad becomes the provided seed, or a 1x1 ones tensor when `value.size() == 1`,
or a ones tensor shaped like the value; otherwise nothing is written. -/
def seed_root (g : Graph) (root : Nat) (seed : Option Tensor) : Graph :=
  match g.node? root with
  | none => g
  | some nd =>
    if nd.requires_grad then
      g.setNode root { nd with grad :=
        match seed with
        | some s => s
        | none => if nd.value.size = 1 then Tensor.ones 1 1 else Tensor.ones_like nd.value }
    else g

/-- Embedding of `backward` (autodiff.cpp).  The topological order produced by
`topo_from` (implemented outside the embedded sources) is a parameter; the
loop runs over its reverse, after seeding the root's grad. -/
def backward (vjpL : Nat → Option VjpFn) (feval : FEval) (order : List Nat)
    (fuel : Nat) (g : Graph) (root : Nat) (seed : Option Tensor) :
    Except BackError (Graph × List BWarn) :=
  match g.node? root with
  | none => Except.ok (g, [])
  | some _ => backward_loop vjpL feval fuel (seed_root g root seed) order.reverse

/-- One iteration of the forward walk of `jvp`: the tangent starts from the
seed map (or zeros shaped like the value), then the JVP rule, when registered,
replaces it using the lookup closure over the tangent table built so far
(defaulting to the shared empty tensor `Z`).  The table is an association
list; consing models the `T[n] = t` overwrite. -/
def jvp_step (jvpL : Nat → Option JvpFn) (g : Graph) (seedm : List (Nat × Tensor))
    (T : List (Nat × Tensor)) (n : Nat) : List (Nat × Tensor) :=
  match g.node? n with
  | none => T
  | some nd =>
    let t0 :=
      match List.lookup n seedm with
      | some s => s
      | none => Tensor.zeros_like nd.value
    let look := fun p => (List.lookup p T).getD Tensor.empty
    let t1 :=
      match jvpL nd.op with
      | some fn => fn g n look
      | none => t0
    (n, t1) :: T

/-- Embedding of `jvp` (autodiff.cpp): single forward pass over the
topological order (a parameter, as for `backward`), returning the tangent
recorded for the root (`operator[]` default-constructs when absent). -/
def jvp (jvpL : Nat → Option JvpFn) (order : List Nat) (g : Graph) (root : Nat)
    (seedm : List (Nat × Tensor)) : Tensor :=
  match g.node? root with
  | none => Tensor.empty
  | some _ =>
    let T := order.foldl (jvp_step jvpL g seedm) []
    (List.lookup root T).getD Tensor.empty

/-- The tracer's captured state: `order_list` is the insertion-ordered,
deduplicated capture list, `outputs_raw` the explicitly marked outputs. -/
structure Tracer where
  order_list : List Nat
  outputs_raw : List Nat
deriving DecidableEq, Repr, Inhabited

/-- Embedding of `Tracer::outputs` (tracer.cpp): the explicitly marked
outputs in capture order, or else every captured node with no captured
consumer, or else the last captured node as a fallback. -/
def Tracer.outputs (tr : Tracer) (g : Graph) : List Nat :=
  if tr.outputs_raw.isEmpty = false then
    tr.order_list.filter (fun i => i ∈ tr.outputs_raw)
  else
    let has_consumer := tr.order_list.foldl (fun acc i =>
      match g.node? i with
      | some nd => acc ++ nd.inputs.filterMap id
      | none => acc) []
    let outs := tr.order_list.filter (fun i => i ∉ has_consumer)
    if outs.isEmpty then
      match tr.order_list.getLast? with
      | some l => [l]
      | none => []
    else outs

/-- The DFS bookkeeping of `dfs_visit` (tracer.cpp): temporary and permanent
marks plus the post-order emission list. -/
structure DfsState where
  temp : List Nat
  perm : List Nat
  out : List Nat
deriving DecidableEq, Repr, Inhabited

/-- Embedding of `dfs_visit` (tracer.cpp): depth-first over the node's inputs
filtered to the captured set, emitting the node itself on post-order. -/
def dfs_visit (g : Graph) (cap : List Nat) : Nat → Nat → DfsState → Option DfsState
  | 0, _, _ => none
  | fuel+1, i, st =>
    if i ∈ st.perm then some st
    else if i ∈ st.temp then some st
    else
      match g.node? i with
      | none => some st
      | some nd =>
        let st1 : DfsState := { st with temp := i :: st.temp }
        match (nd.inputs.filterMap id).foldlM
            (fun s j => if j ∈ cap then dfs_visit g cap fuel j s else some s) st1 with
        | none => none
        | some st2 => some { st2 with perm := i :: st2.perm, out := st2.out ++ [i] }

/-- Embedding of `Tracer::topo_sort` (tracer.cpp): DFS from each detected
output over inputs filtered to the captured set, then DFS from every captured
node not yet permanently marked, then reverse the post-order emission. -/
def Tracer.topo_sort (tr : Tracer) (g : Graph) (fuel : Nat) : Option (List Nat) :=
  if tr.order_list.isEmpty then some []
  else
    let cap := tr.order_list
    let outs := tr.outputs g
    match outs.foldlM (fun st o => dfs_visit g cap fuel o st) (DfsState.mk [] [] []) with
    | none => none
    | some st1 =>
      match cap.foldlM
          (fun st i => if i ∈ st.perm then some st else dfs_visit g cap fuel i st) st1 with
      | none => none
      | some st2 => some st2.out.reverse

/-! Specification predicates used by the theorems. -/

/-- Validity of the embedding's indices: every non-null input of every node
refers to a node of the graph.  This always holds for the C++ graphs, where
inputs are live `shared_ptr`s. -/
def WFinputs (g : Graph) : Bool :=
  g.nodes.all (fun nd => nd.inputs.all (fun x =>
    match x with
    | some j => decide (j < g.nodes.length)
    | none => true))

/-- Reachability from `root` along the `inputs` edges, as walked by the
eviction sweep. -/
inductive Reaches (g : Graph) (root : Nat) : Nat → Prop where
  | refl : Reaches g root root
  | step : ∀ {i j : Nat}, Reaches g root i → ∀ nd : Node, g.node? i = some nd →
      some j ∈ nd.inputs → Reaches g root j

/-- A node with its snapshot payload erased; two nodes with the same
`stripSnap` image agree on every field except `saved_input_tensors`. -/
def stripSnap (nd : Node) : Node := { nd with saved_input_tensors := [] }

/-- Two graphs that agree everywhere except possibly on the
`saved_input_tensors` payload of their nodes. -/
def SnapAgnostic (g1 g2 : Graph) : Prop :=
  ∀ j : Nat, (g1.node? j).map stripSnap = (g2.node? j).map stripSnap

/-- The external contract of the JVP rule table: a JVP is linear in the
tangents, so a rule fed all-zero tangents returns a zero tensor shaped like
the node's value. -/
def ZeroPreserving (jvpL : Nat → Option JvpFn) : Prop :=
  ∀ op fn, jvpL op = some fn → ∀ (g : Graph) (n : Nat) (nd : Node) (look : Nat → Tensor),
    g.node? n = some nd → (∀ p, (look p).isZero = true) →
    (fn g n look).rows = nd.value.rows ∧ (fn g n look).cols = nd.value.cols ∧
      (fn g n look).isZero = true

/-! Concrete graphs used by the counterexample and witness theorems. -/

/-- A node with the given op, inputs and value and all other fields at their
defaults. -/
def mkNode (op : Nat) (inputs : List (Option Nat)) (value : Tensor) : Node :=
  { op := op
    inputs := inputs
    value := value
    grad := Tensor.empty
    requires_grad := true
    is_checkpoint := false
    saved_input_tensors := []
    saved_inputs := []
    has_saved_rng := false
    saved_rng_blob := []
    tape := [] }

/-- C1 scenario: a two-node captured subgraph, node 1 consuming node 0, with
node 1 marked as the output. -/
def gC1 : Graph := ⟨[mkNode 0 [] (Tensor.mk 1 1 [2]), mkNode 1 [some 0] (Tensor.mk 1 1 [4])]⟩

def trC1 : Tracer := ⟨[0, 1], [1]⟩

/-- C2 scenario: node 1 is a checkpoint whose single input slot was
snapshotted (`saved_input_tensors = [1x1 tensor]`, placeholder handle as the
marking code writes it), and whose parent node 0 has been evicted and is not
itself a checkpoint. -/
def gC2 : Graph :=
  ⟨[mkNode 0 [] Tensor.empty,
    { mkNode 1 [some 0] (Tensor.mk 1 1 [3]) with
        is_checkpoint := true
        saved_input_tensors := [Tensor.mk 1 1 [5]]
        saved_inputs := [Value.mk none] }]⟩

/-- A forward evaluator that always succeeds, so the only way C2's
recomputation can fail is the missing parent value. -/
def fevalC2 : FEval := fun _ _ => some (Tensor.mk 1 1 [7])

/-- Witness graph for the backward-pass claims: node 1 requires grad, has a
non-empty value, and consumes node 0, whose value is empty and which is not a
checkpoint. -/
def gW3 : Graph := ⟨[mkNode 0 [] Tensor.empty, mkNode 1 [some 0] (Tensor.mk 1 1 [3])]⟩

/-- Witness graph for the missing-VJP claim: node 1 requires grad and its
parent node 0 has a value, so the parent scan succeeds. -/
def gW6 : Graph := ⟨[mkNode 0 [] (Tensor.mk 1 1 [2]), mkNode 1 [some 0] (Tensor.mk 1 1 [3])]⟩

/-- A forward evaluator that always throws, used where evaluation must not be
reached or must be swallowed. -/
def fevalNone : FEval := fun _ _ => none

/-- An empty VJP rule table. -/
def vjpLNone : Nat → Option VjpFn := fun _ => none

/-- An empty JVP rule table. -/
def jvpLNone : Nat → Option JvpFn := fun _ => none

/-- Witness graph for the seeding claim: a scalar root that requires grad. -/
def gW7 : Graph := ⟨[mkNode 0 [] (Tensor.mk 1 1 [9])]⟩

/-- Witness graph for the jvp claim: a single 2x2-valued root. -/
def gW8 : Graph := ⟨[mkNode 0 [] (Tensor.mk 2 2 [1, 2, 3, 4])]⟩

/-- Witness graph for the forward-values claim: node 0 already has a value,
node 1 does not. -/
def gW9 : Graph := ⟨[mkNode 0 [] (Tensor.mk 1 1 [2]), mkNode 1 [some 0] Tensor.empty]⟩

/-- Witness graphs for the snapshot-obliviousness claim: they differ only in
node 1's `saved_input_tensors`. -/
def gW10a : Graph :=
  ⟨[mkNode 0 [] Tensor.empty,
    { mkNode 1 [some 0] (Tensor.mk 1 1 [3]) with
        is_checkpoint := true
        saved_input_tensors := [Tensor.mk 1 1 [5]]
        saved_inputs := [Value.mk none] }]⟩

def gW10b : Graph :=
  ⟨[mkNode 0 [] Tensor.empty,
    { mkNode 1 [some 0] (Tensor.mk 1 1 [3]) with
        is_checkpoint := true
        saved_input_tensors := []
        saved_inputs := [Value.mk none] }]⟩

/-- Witness graph for the eviction claim: root 2 consumes checkpoint 1, which
consumes leaf 0; the protect BFS stops at node 1, so node 0 is evicted. -/
def gW4 : Graph :=
  ⟨[{ mkNode 0 [] (Tensor.mk 1 1 [1]) with tape := [Tensor.mk 1 1 [8]] },
    { mkNode 1 [some 0] (Tensor.mk 1 1 [2]) with is_checkpoint := true },
    mkNode 2 [some 1] (Tensor.mk 1 1 [3])]⟩

/-- The graph `gW4` after eviction: node 0 (behind the checkpoint) has its
value and tape cleared, nodes 1 and 2 are untouched. -/
def gW4e : Graph :=
  ⟨[mkNode 0 [] Tensor.empty,
    { mkNode 1 [some 0] (Tensor.mk 1 1 [2]) with is_checkpoint := true },
    mkNode 2 [some 1] (Tensor.mk 1 1 [3])]⟩

/-! Helper lemmas about the graph accessors. -/

theorem lt_len_of_node? {g : Graph} {i : Nat} {nd : Node} (h : g.node? i = some nd) :
    i < g.len := by
  rcases List.getElem?_eq_some.mp h with ⟨h1, _⟩
  exact h1

theorem node?_setNode_self {g : Graph} {i : Nat} {nd : Node} (nd' : Node)
    (h : g.node? i = some nd) : (g.setNode i nd').node? i = some nd' := by
  have hlt : i < g.nodes.length := lt_len_of_node? h
  simpa [Graph.node?, Graph.setNode] using List.getElem?_set_eq_of_lt nd' hlt

theorem node?_setNode_ne {i j : Nat} (g : Graph) (nd' : Node) (h : i ≠ j) :
    (g.setNode i nd').node? j = g.node? j := by
  simp [Graph.node?, Graph.setNode, List.getElem?_set_ne h]

theorem len_setNode (g : Graph) (i : Nat) (nd' : Node) : (g.setNode i nd').len = g.len := by
  simp [Graph.len, Graph.setNode]

theorem node?_of_lt {g : Graph} {i : Nat} (h : i < g.len) : ∃ nd, g.node? i = some nd :=
  ⟨g.nodes[i], List.getElem?_eq_getElem h⟩

theorem map_node?_setNode {g : Graph} {i : Nat} {nd : Node} {α : Type} (f : Node → α)
    (nd' : Node) (h : g.node? i = some nd) (hf : f nd' = f nd) (j : Nat) :
    ((g.setNode i nd').node? j).map f = (g.node? j).map f := by
  by_cases hij : i = j
  · subst hij
    rw [node?_setNode_self nd' h, h]
    simp [hf]
  · rw [node?_setNode_ne g nd' hij]

theorem wfinputs_spec {g : Graph} (hw : WFinputs g = true) :
    ∀ i nd, g.node? i = some nd → ∀ j, some j ∈ nd.inputs → j < g.len := by
  intro i nd h j hj
  have hm : nd ∈ g.nodes := List.mem_iff_getElem?.mpr ⟨i, h⟩
  rw [WFinputs, List.all_eq_true] at hw
  have h2 := hw nd hm
  rw [List.all_eq_true] at h2
  have h3 := h2 (some j) hj
  simpa [Graph.len] using h3

theorem markedNode_is_checkpoint (g : Graph) (nd : Node) (opts : CheckpointOptions) :
    (markedNode g nd opts).is_checkpoint = true := by
  rw [markedNode]
  cases opts.save_rng <;> simp

/-! Theorems for the claims. -/

/-- Claim C1: the claim states that `Tracer::topo_sort` returns the captured
nodes in parent-before-child order.  Evaluating the embedded code on the
captured two-node subgraph in which node 1 consumes node 0 (and is the marked
output) returns `[1, 0]`: the consumer appears strictly before its input, so
the implementation (post-order DFS over inputs followed by a reversal)
actually produces child-before-parent order, contradicting the claim and the
source's own header comment. -/
theorem topo_sort_child_before_parent_C1 :
    Tracer.topo_sort trC1 gC1 10 = some [1, 0] ∧
    (∃ nd, gC1.node? 1 = some nd ∧ some 0 ∈ nd.inputs) ∧
    0 ∈ trC1.order_list ∧ 1 ∈ trC1.order_list ∧
    List.indexOf 1 [1, 0] < List.indexOf 0 [1, 0] := by
  exact ⟨by decide, ⟨_, rfl, by decide⟩, by decide, by decide, by decide⟩

/-- Claim C2: the claim states that a snapshotted input slot is restored into
the parent before recomputation, so recomputation succeeds even when the
parent was evicted and is not a checkpoint.  Evaluating the embedded code:
node 1 is a checkpoint whose slot 0 holds a stored non-empty snapshot, its
parent 0 has an empty value and is not a checkpoint, and the forward
evaluator always succeeds — yet `recompute_subgraph` returns `false` and
leaves the graph (in particular the parent's value) unchanged, because the
placeholder handle written at mark time is null and the snapshot is never
read. -/
theorem recompute_ignores_snapshot_C2 :
    (∃ t : Tensor, (gC2.node? 1).map Node.saved_input_tensors = some [t] ∧ t.size ≠ 0) ∧
    (gC2.node? 0).map Node.value = some Tensor.empty ∧
    (gC2.node? 0).map Node.is_checkpoint = some false ∧
    recompute_subgraph fevalC2 9 gC2 1 = (false, gC2) := by
  exact ⟨⟨Tensor.mk 1 1 [5], by decide, by decide⟩, by decide, by decide, by decide⟩

/-- Claim C5: `mark_node_checkpoint` is idempotent: marking a node whose
`is_checkpoint` flag is already set leaves the graph (hence every field of
the node) unchanged, for any options; and marking a node twice, with any
options the second time, equals marking it once. -/
theorem mark_node_checkpoint_idem :
    ∀ (g : Graph) (i : Nat) (o1 o2 : CheckpointOptions),
      (∀ nd, g.node? i = some nd → nd.is_checkpoint = true →
          mark_node_checkpoint g i o1 = g) ∧
      mark_node_checkpoint (mark_node_checkpoint g i o1) i o2 =
        mark_node_checkpoint g i o1 := by
  intro g i o1 o2
  constructor
  · intro nd h hc
    simp [mark_node_checkpoint, h, hc]
  · rcases h : g.node? i with _ | nd
    · simp [mark_node_checkpoint, h]
    · rcases hc : nd.is_checkpoint with _ | _
      · have h1 : mark_node_checkpoint g i o1 = g.setNode i (markedNode g nd o1) := by
          simp [mark_node_checkpoint, h, hc]
        have h2 : (g.setNode i (markedNode g nd o1)).node? i = some (markedNode g nd o1) :=
          node?_setNode_self _ h
        rw [h1]
        simp [mark_node_checkpoint, h2, markedNode_is_checkpoint]
      · have h1 : mark_node_checkpoint g i o1 = g := by
          simp [mark_node_checkpoint, h, hc]
        rw [h1]
        simp [mark_node_checkpoint, h, hc]

/-- Witness for C5 at a concrete input: node 1 of `gC2` is already a
checkpoint, so marking it again is the identity, and double marking node 0
equals single marking. -/
theorem mark_node_checkpoint_idem_witness :
    mark_node_checkpoint gC2 1 (CheckpointOptions.mk false) = gC2 ∧
    mark_node_checkpoint (mark_node_checkpoint gC2 0 (CheckpointOptions.mk true)) 0
        (CheckpointOptions.mk false) =
      mark_node_checkpoint gC2 0 (CheckpointOptions.mk true) := by
  constructor
  · exact (mark_node_checkpoint_idem gC2 1 (CheckpointOptions.mk false)
      (CheckpointOptions.mk false)).1 _ rfl (by decide)
  · exact (mark_node_checkpoint_idem gC2 0 (CheckpointOptions.mk true)
      (CheckpointOptions.mk false)).2

/-- Claim C7: at the start of `backward(root, seed)`, a root that requires
grad has its grad set to the provided seed when one is given, to a ones
tensor shaped like its value otherwise, and specifically to a 1x1 ones tensor
when the value has exactly one element; a root that does not require grad is
not seeded; and `backward` runs its reverse walk on exactly the seeded
graph. -/
theorem backward_seeds_root_C7 :
    ∀ (g : Graph) (root : Nat) (seed : Option Tensor) (nd : Node),
      g.node? root = some nd →
      ( (nd.requires_grad = true → ∀ s, seed = some s →
          ((seed_root g root seed).node? root).map Node.grad = some s)
      ∧ (nd.requires_grad = true → seed = none → nd.value.numel ≠ 1 →
          ((seed_root g root seed).node? root).map Node.grad =
            some (Tensor.ones_like nd.value))
      ∧ (nd.requires_grad = true → seed = none → nd.value.numel = 1 →
          ((seed_root g root seed).node? root).map Node.grad = some (Tensor.ones 1 1))
      ∧ (nd.requires_grad = false → seed_root g root seed = g)
      ∧ (∀ (vjpL : Nat → Option VjpFn) (feval : FEval) (order : List Nat) (fuel : Nat),
          backward vjpL feval order fuel g root seed =
            backward_loop vjpL feval fuel (seed_root g root seed) order.reverse) ) := by
  intro g root seed nd h
  refine ⟨?_, ?_, ?_, ?_, ?_⟩
  · intro hrg s hs
    subst hs
    rw [seed_root, h]
    simp only [hrg, if_true]
    rw [node?_setNode_self _ h]
    rfl
  · intro hrg hs hn
    subst hs
    rw [seed_root, h]
    simp only [hrg, if_true]
    rw [node?_setNode_self _ h]
    have : nd.value.size ≠ 1 := hn
    simp [this]
  · intro hrg hs hn
    subst hs
    rw [seed_root, h]
    simp only [hrg, if_true]
    rw [node?_setNode_self _ h]
    have : nd.value.size = 1 := hn
    simp [this]
  · intro hrg
    rw [seed_root, h]
    simp [hrg]
  · intro vjpL feval order fuel
    rw [backward, h]

/-- Witness for C7 at a concrete input: the scalar root of `gW7` requires
grad and, with no explicit seed, is seeded with the 1x1 ones tensor; and
`backward` starts from the seeded graph. -/
theorem backward_seeds_root_C7_witness :
    ((seed_root gW7 0 none).node? 0).map Node.grad = some (Tensor.ones 1 1) ∧
    backward vjpLNone fevalNone [0] 3 gW7 0 none =
      backward_loop vjpLNone fevalNone 3 (seed_root gW7 0 none) [0].reverse := by
  have h := backward_seeds_root_C7 gW7 0 none (mkNode 0 [] (Tensor.mk 1 1 [9])) rfl
  exact ⟨h.2.2.1 rfl rfl (by decide), h.2.2.2.2 vjpLNone fevalNone [0] 3⟩

theorem cfv_step_preserves (feval : FEval) {g : Graph} {i : Nat} {nd : Node}
    (h : g.node? i = some nd) (hv : nd.value.size ≠ 0) (j : Nat) :
    (cfv_step feval g j).node? i = some nd := by
  rw [cfv_step]
  rcases hj : g.node? j with _ | ndj
  · exact h
  · by_cases hvj : ndj.value.size = 0
    · simp only [hvj, ne_eq, not_true_eq_false, if_false]
      rcases hf : feval g j with _ | t
      · exact h
      · have hji : j ≠ i := by
          intro he
          subst he
          rw [h] at hj
          cases hj
          exact hv hvj
        rw [node?_setNode_ne g _ hji]
        exact h
    · simp only [ne_eq, hvj, not_false_eq_true, if_true]
      exact h

theorem compute_forward_values_preserves (feval : FEval) :
    ∀ (order : List Nat) (g : Graph) (i : Nat) (nd : Node),
      g.node? i = some nd → nd.value.size ≠ 0 →
      (compute_forward_values feval order g).node? i = some nd := by
  intro order
  induction order with
  | nil => intro g i nd h _; exact h
  | cons k rest ih =>
    intro g i nd h hv
    rw [compute_forward_values, List.foldl_cons]
    exact ih (cfv_step feval g k) i nd (cfv_step_preserves feval h hv k) hv

/-- Claim C9: `compute_forward_values` walks the nodes of the given order;
a node whose value is already non-empty is left unchanged by the entire walk;
the walk decomposes node by node and continues across list concatenation, so
it always processes the remaining nodes; and the per-node step skips null
nodes, skips already-computed nodes, stores the evaluator's result on an
empty node, and swallows an evaluator exception (`feval _ _ = none`) leaving
the graph unchanged — the step is a total function, so the exception is never
propagated. -/
theorem compute_forward_values_C9 :
    ∀ (feval : FEval) (order : List Nat) (g : Graph),
      (∀ i nd, g.node? i = some nd → nd.value.size ≠ 0 →
          (compute_forward_values feval order g).node? i = some nd)
      ∧ (∀ i rest, compute_forward_values feval (i :: rest) g =
          compute_forward_values feval rest (cfv_step feval g i))
      ∧ (∀ pre post, compute_forward_values feval (pre ++ post) g =
          compute_forward_values feval post (compute_forward_values feval pre g))
      ∧ (∀ i, g.node? i = none → cfv_step feval g i = g)
      ∧ (∀ i nd, g.node? i = some nd → nd.value.size ≠ 0 → cfv_step feval g i = g)
      ∧ (∀ i nd, g.node? i = some nd → nd.value.size = 0 → feval g i = none →
          cfv_step feval g i = g)
      ∧ (∀ i nd t, g.node? i = some nd → nd.value.size = 0 → feval g i = some t →
          cfv_step feval g i = g.setNode i { nd with value := t }) := by
  intro feval order g
  refine ⟨?_, ?_, ?_, ?_, ?_, ?_, ?_⟩
  · intro i nd h hv
    exact compute_forward_values_preserves feval order g i nd h hv
  · intro i rest
    rfl
  · intro pre post
    simp [compute_forward_values, List.foldl_append]
  · intro i h
    rw [cfv_step, h]
  · intro i nd h hv
    rw [cfv_step, h]
    simp [hv]
  · intro i nd h hv hf
    rw [cfv_step, h]
    simp [hv, hf]
  · intro i nd t h hv hf
    rw [cfv_step, h]
    simp [hv, hf]

/-- Witness for C9 at a concrete input: in `gW9`, node 0 (already computed)
is unchanged by the whole walk even though the evaluator throws everywhere,
and the step on node 1 (empty value, evaluator throws) leaves the graph
unchanged. -/
theorem compute_forward_values_C9_witness :
    (compute_forward_values fevalNone [0, 1] gW9).node? 0 =
      some (mkNode 0 [] (Tensor.mk 1 1 [2])) ∧
    cfv_step fevalNone gW9 1 = gW9 := by
  obtain ⟨h1, _, _, _, _, h6, _⟩ := compute_forward_values_C9 fevalNone [0, 1] gW9
  exact ⟨h1 0 _ rfl (by decide), h6 1 (mkNode 1 [some 0] Tensor.empty) rfl (by decide) rfl⟩

theorem bw_check_parents_append (feval : FEval) (fuel : Nat) (n : Nat) :
    ∀ (l1 l2 : List (Option Nat)) (g : Graph),
      bw_check_parents feval fuel n g (l1 ++ l2) =
        match bw_check_parents feval fuel n g l1 with
        | Except.ok g1 => bw_check_parents feval fuel n g1 l2
        | Except.error e => Except.error e := by
  intro l1
  induction l1 with
  | nil => intro l2 g; rfl
  | cons a l ih =>
    intro l2 g
    rcases a with _ | p
    · simp only [List.cons_append, bw_check_parents]
      exact ih l2 g
    · simp only [List.cons_append, bw_check_parents]
      rcases hp : g.node? p with _ | pnd
      · exact ih l2 g
      · dsimp only
        by_cases hz : pnd.value.numel = 0
        · rw [if_pos hz, if_pos hz]
          by_cases hcp : pnd.is_checkpoint = true
          · rw [if_pos hcp, if_pos hcp]
            rcases hr : recompute_subgraph feval fuel g p with ⟨b, g2⟩
            rcases b
            · rfl
            · exact ih l2 g2
          · rw [if_neg hcp, if_neg hcp]
        · rw [if_neg hz, if_neg hz]
          exact ih l2 g

/-- Claim C3: during backward, for a node `n` that requires grad, when the
parent scan reaches a parent `p` whose value is empty (every earlier parent
check having passed), then: if `p` is not a checkpoint the scan fails with
the fatal `parentMissing` error carrying both the parent and the consumer
identity; if `p` is a checkpoint its recomputation is invoked, a failed
recomputation raises the fatal `recomputeParentFailed` error (also carrying
both identities), and a successful one lets the scan continue; an erroring
scan makes the whole per-node step of `backward` return exactly that error
for EVERY possible VJP rule table — i.e. before any VJP rule for `n` is
consulted or invoked; and the backward walk, upon reaching `n`, aborts with
that error. -/
theorem backward_missing_parent_C3 :
    (∀ (feval : FEval) (fuel : Nat) (n : Nat) (g : Graph) (ps1 ps2 : List (Option Nat))
        (p : Nat) (g1 : Graph) (pnd : Node),
      bw_check_parents feval fuel n g ps1 = Except.ok g1 →
      g1.node? p = some pnd →
      pnd.value.numel = 0 →
      ( (pnd.is_checkpoint = false →
          bw_check_parents feval fuel n g (ps1 ++ some p :: ps2) =
            Except.error (BackError.parentMissing p n))
      ∧ (pnd.is_checkpoint = true → (recompute_subgraph feval fuel g1 p).1 = false →
          bw_check_parents feval fuel n g (ps1 ++ some p :: ps2) =
            Except.error (BackError.recomputeParentFailed p n))
      ∧ (pnd.is_checkpoint = true → (recompute_subgraph feval fuel g1 p).1 = true →
          bw_check_parents feval fuel n g (ps1 ++ some p :: ps2) =
            bw_check_parents feval fuel n (recompute_subgraph feval fuel g1 p).2 ps2) ))
    ∧ (∀ (vjpL : Nat → Option VjpFn) (feval : FEval) (fuel : Nat) (g : Graph) (n : Nat)
        (nd : Node) (gs : Graph) (e : BackError),
      g.node? n = some nd → nd.requires_grad = true →
      bw_recompute_self feval fuel g n nd = Except.ok gs →
      bw_check_parents feval fuel n gs nd.inputs = Except.error e →
      backward_step vjpL feval fuel g n = Except.error e)
    ∧ (∀ (vjpL : Nat → Option VjpFn) (feval : FEval) (fuel : Nat) (g0 : Graph)
        (pre : List Nat) (n : Nat) (post : List Nat) (e : BackError) (g1 : Graph)
        (ws : List BWarn),
      backward_loop vjpL feval fuel g0 pre = Except.ok (g1, ws) →
      backward_step vjpL feval fuel g1 n = Except.error e →
      backward_loop vjpL feval fuel g0 (pre ++ n :: post) = Except.error e) := by
  refine ⟨?_, ?_, ?_⟩
  · intro feval fuel n g ps1 ps2 p g1 pnd hok hp hz
    have hbase : bw_check_parents feval fuel n g (ps1 ++ some p :: ps2) =
        bw_check_parents feval fuel n g1 (some p :: ps2) := by
      rw [bw_check_parents_append feval fuel n ps1 (some p :: ps2) g, hok]
    refine ⟨?_, ?_, ?_⟩
    · intro hcp
      rw [hbase]
      simp only [bw_check_parents, hp]
      rw [if_pos hz, if_neg (by simp [hcp])]
    · intro hcp hrf
      rw [hbase]
      simp only [bw_check_parents, hp]
      rw [if_pos hz, if_pos hcp]
      rcases hr : recompute_subgraph feval fuel g1 p with ⟨b, g2⟩
      rw [hr] at hrf
      simp only at hrf
      subst hrf
      rfl
    · intro hcp hrt
      rw [hbase]
      simp only [bw_check_parents, hp]
      rw [if_pos hz, if_pos hcp]
      rcases hr : recompute_subgraph feval fuel g1 p with ⟨b, g2⟩
      rw [hr] at hrt
      simp only at hrt
      subst hrt
      rfl
  · intro vjpL feval fuel g n nd gs e h hrg hs herr
    simp only [backward_step, h, hrg, hs, herr]
    simp
  · intro vjpL feval fuel g0 pre
    induction pre generalizing g0 with
    | nil =>
      intro n post e g1 ws hok hstep
      rw [backward_loop] at hok
      cases hok
      rw [List.nil_append, backward_loop, hstep]
    | cons a l ih =>
      intro n post e g1 ws hok hstep
      rw [backward_loop] at hok
      rcases ha : backward_step vjpL feval fuel g0 a with ea | ⟨ga, w⟩
      · simp only [ha] at hok
        cases hok
      · simp only [ha] at hok
        rcases hl : backward_loop vjpL feval fuel ga l with el | ⟨g2, ws2⟩
        · simp only [hl] at hok
          cases hok
        · simp only [hl, Except.ok.injEq, Prod.mk.injEq] at hok
          obtain ⟨h1, h2⟩ := hok
          rw [h1] at hl
          have hrest := ih ga n post e g1 ws2 hl hstep
          rw [List.cons_append, backward_loop]
          simp only [ha, hrest]

/-- Witness for C3 at a concrete input: in `gW3`, node 1 requires grad and
its parent 0 has an empty value and is not a checkpoint, so the parent scan,
the backward step, and the backward walk all fail with the
`parentMissing 0 1` error naming both nodes. -/
theorem backward_missing_parent_C3_witness :
    bw_check_parents fevalNone 5 1 gW3 [some 0] =
      Except.error (BackError.parentMissing 0 1) ∧
    backward_step vjpLNone fevalNone 5 gW3 1 =
      Except.error (BackError.parentMissing 0 1) ∧
    backward_loop vjpLNone fevalNone 5 gW3 [1] =
      Except.error (BackError.parentMissing 0 1) := by
  obtain ⟨h1, h2, h3⟩ := backward_missing_parent_C3
  have ha : bw_check_parents fevalNone 5 1 gW3 ([] ++ some 0 :: []) =
      Except.error (BackError.parentMissing 0 1) :=
    (h1 fevalNone 5 1 gW3 [] [] 0 gW3 (mkNode 0 [] Tensor.empty) rfl (by decide)
      (by decide)).1 (by decide)
  have hb : backward_step vjpLNone fevalNone 5 gW3 1 =
      Except.error (BackError.parentMissing 0 1) :=
    h2 vjpLNone fevalNone 5 gW3 1 (mkNode 1 [some 0] (Tensor.mk 1 1 [3])) gW3
      (BackError.parentMissing 0 1) (by decide) (by decide) rfl ha
  exact ⟨ha, hb, h3 vjpLNone fevalNone 5 gW3 [] 1 [] (BackError.parentMissing 0 1) gW3 []
    rfl hb⟩

theorem except_ok_bind {ε α β : Type} (x : α) (f : α → Except ε β) :
    (Except.ok x >>= f) = f x := rfl

theorem except_error_bind {ε α β : Type} (e : ε) (f : α → Except ε β) :
    ((Except.error e : Except ε α) >>= f) = Except.error e := rfl

theorem foldlM_grads {α : Type} (f : Graph → α → Except Graph Graph) (l : List α)
    (hstep : ∀ g a, (∀ g', f g a = Except.ok g' →
        ∀ j, (g'.node? j).map Node.grad = (g.node? j).map Node.grad)
      ∧ (∀ g', f g a = Except.error g' →
        ∀ j, (g'.node? j).map Node.grad = (g.node? j).map Node.grad)) :
    ∀ g, (∀ g', l.foldlM f g = Except.ok g' →
        ∀ j, (g'.node? j).map Node.grad = (g.node? j).map Node.grad)
      ∧ (∀ g', l.foldlM f g = Except.error g' →
        ∀ j, (g'.node? j).map Node.grad = (g.node? j).map Node.grad) := by
  induction l with
  | nil =>
    intro g
    constructor
    · intro g' h j
      rw [List.foldlM_nil] at h
      cases h
      rfl
    · intro g' h j
      rw [List.foldlM_nil] at h
      cases h
  | cons a l ih =>
    intro g
    rcases hf : f g a with g1 | g1
    · constructor
      · intro g' h j
        rw [List.foldlM_cons, hf, except_error_bind] at h
        cases h
      · intro g' h j
        rw [List.foldlM_cons, hf, except_error_bind] at h
        cases h
        exact (hstep g a).2 g1 hf j
    · have h1 := (hstep g a).1 g1 hf
      have h2 := ih g1
      constructor
      · intro g' h j
        rw [List.foldlM_cons, hf, except_ok_bind] at h
        rw [h2.1 g' h j, h1 j]
      · intro g' h j
        rw [List.foldlM_cons, hf, except_ok_bind] at h
        rw [h2.2 g' h j, h1 j]

theorem recompute_subgraph_grads (feval : FEval) :
    ∀ (fuel : Nat) (g : Graph) (i : Nat) (j : Nat),
      (((recompute_subgraph feval fuel g i).2).node? j).map Node.grad =
        (g.node? j).map Node.grad := by
  intro fuel
  induction fuel with
  | zero => intro g i j; rfl
  | succ fuel ih =>
    intro g i j
    rcases h : g.node? i with _ | nd
    · simp [recompute_subgraph, h]
    · rcases hc : nd.is_checkpoint with _ | _
      · simp [recompute_subgraph, h, hc]
      · rcases hemp : nd.saved_inputs.isEmpty with _ | _
        · simp only [recompute_subgraph, h, hc, hemp, Bool.true_eq_false, Bool.false_eq_true,
            if_false]
          have hstep : ∀ g0 k,
              (∀ g', rc_slot_step (recompute_subgraph feval fuel) nd g0 k = Except.ok g' →
                ∀ j0, (g'.node? j0).map Node.grad = (g0.node? j0).map Node.grad)
            ∧ (∀ g', rc_slot_step (recompute_subgraph feval fuel) nd g0 k = Except.error g' →
                ∀ j0, (g'.node? j0).map Node.grad = (g0.node? j0).map Node.grad) := by
            intro g0 k
            have hrec2 : ∀ (gx : Graph) (px : Nat) (b : Bool) (gy : Graph),
                recompute_subgraph feval fuel gx px = (b, gy) →
                ∀ j0, (gy.node? j0).map Node.grad = (gx.node? j0).map Node.grad := by
              intro gx px b gy hxy j0
              have hh := ih gx px j0
              rw [hxy] at hh
              exact hh
            constructor
            · intro g' hg' j0
              rw [rc_slot_step] at hg'
              repeat' split at hg'
              all_goals try (cases hg')
              all_goals try rfl
              all_goals
                first
                  | (rename_i hp hsn
                     exact map_node?_setNode Node.grad _ hp (by rfl) j0)
                  | (rename_i hr
                     exact hrec2 _ _ _ _ hr j0)
            · intro g' hg' j0
              rw [rc_slot_step] at hg'
              repeat' split at hg'
              all_goals try (cases hg')
              all_goals try rfl
              all_goals
                first
                  | (rename_i hp hsn
                     exact map_node?_setNode Node.grad _ hp (by rfl) j0)
                  | (rename_i hr
                     exact hrec2 _ _ _ _ hr j0)
          have hfold := foldlM_grads (rc_slot_step (recompute_subgraph feval fuel) nd)
            (List.range (min nd.saved_inputs.length nd.inputs.length)) hstep g
          rcases hf : (List.range (min nd.saved_inputs.length nd.inputs.length)).foldlM
              (rc_slot_step (recompute_subgraph feval fuel) nd) g with g1 | g1
          · dsimp only
            exact hfold.2 g1 hf j
          · dsimp only
            have hok := hfold.1 g1 hf
            rcases hev : feval g1 i with _ | t
            · dsimp only
              exact hok j
            · dsimp only
              rcases hni : g1.node? i with _ | nd1
              · dsimp only
                exact hok j
              · dsimp only
                have hset := map_node?_setNode Node.grad { nd1 with value := t } hni rfl j
                exact hset.trans (hok j)
        · simp [recompute_subgraph, h, hc, hemp]

theorem bw_recompute_self_grads (feval : FEval) (fuel : Nat) (g : Graph) (n : Nat)
    (nd : Node) (gs : Graph) (h : bw_recompute_self feval fuel g n nd = Except.ok gs) :
    ∀ j, (gs.node? j).map Node.grad = (g.node? j).map Node.grad := by
  intro j
  rw [bw_recompute_self] at h
  split at h
  · rcases hr : recompute_subgraph feval fuel g n with ⟨b, g2⟩
    rw [hr] at h
    rcases b
    · simp at h
    · simp only at h
      cases h
      have hh := recompute_subgraph_grads feval fuel g n j
      rw [hr] at hh
      exact hh
  · cases h
    rfl

theorem bw_check_parents_grads (feval : FEval) (fuel : Nat) (n : Nat) :
    ∀ (ps : List (Option Nat)) (g gp : Graph),
      bw_check_parents feval fuel n g ps = Except.ok gp →
      ∀ j, (gp.node? j).map Node.grad = (g.node? j).map Node.grad := by
  intro ps
  induction ps with
  | nil =>
    intro g gp h j
    rw [bw_check_parents] at h
    cases h
    rfl
  | cons a l ih =>
    intro g gp h j
    rcases a with _ | p
    · rw [bw_check_parents] at h
      exact ih g gp h j
    · rw [bw_check_parents] at h
      rcases hp : g.node? p with _ | pnd
      · rw [hp] at h
        exact ih g gp h j
      · rw [hp] at h
        dsimp only at h
        by_cases hz : pnd.value.numel = 0
        · rw [if_pos hz] at h
          by_cases hcp : pnd.is_checkpoint = true
          · rw [if_pos hcp] at h
            rcases hr : recompute_subgraph feval fuel g p with ⟨b, g2⟩
            rw [hr] at h
            rcases b
            · simp at h
            · dsimp only at h
              have hh := recompute_subgraph_grads feval fuel g p j
              rw [hr] at hh
              rw [ih g2 gp h j, hh]
          · rw [if_neg hcp] at h
            cases h
        · rw [if_neg hz] at h
          exact ih g gp h j

/-- Claim C6: during backward, when a node `n` with `requires_grad` is
reached, its self-recomputation and parent checks pass, and no VJP rule is
registered for its op, the per-node step emits the `noVjp` warning and
succeeds (no error is raised); the grads of every node — in particular of
`n`'s parents — are unchanged by `n`'s step (the checkpoint recomputations it
may run touch only forward values); and the backward walk continues with the
remaining nodes, merely prepending the warning. -/
theorem backward_skips_missing_vjp_C6 :
    ∀ (vjpL : Nat → Option VjpFn) (feval : FEval) (fuel : Nat) (g : Graph) (n : Nat)
      (nd : Node) (gs gp : Graph),
      g.node? n = some nd → nd.requires_grad = true →
      bw_recompute_self feval fuel g n nd = Except.ok gs →
      bw_check_parents feval fuel n gs nd.inputs = Except.ok gp →
      vjpL nd.op = none →
      ( backward_step vjpL feval fuel g n = Except.ok (gp, some (BWarn.noVjp n))
      ∧ (∀ j, (gp.node? j).map Node.grad = (g.node? j).map Node.grad)
      ∧ (∀ rest, backward_loop vjpL feval fuel g (n :: rest) =
          match backward_loop vjpL feval fuel gp rest with
          | Except.error e => Except.error e
          | Except.ok (g2, ws) => Except.ok (g2, BWarn.noVjp n :: ws)) ) := by
  intro vjpL feval fuel g n nd gs gp h hrg hs hps hv
  have hstep : backward_step vjpL feval fuel g n = Except.ok (gp, some (BWarn.noVjp n)) := by
    simp only [backward_step, h, hrg, hs, hps, hv]
    simp
  refine ⟨hstep, ?_, ?_⟩
  · intro j
    rw [bw_check_parents_grads feval fuel n nd.inputs gs gp hps j]
    exact bw_recompute_self_grads feval fuel g n nd gs hs j
  · intro rest
    rw [backward_loop, hstep]
    dsimp only
    rcases hl : backward_loop vjpL feval fuel gp rest with e | ⟨g2, ws⟩
    · rfl
    · rfl

/-- Witness for C6 at a concrete input: in `gW6` node 1 requires grad, its
parent has a value, and the empty rule table has no VJP for its op; the step
warns and succeeds, grads are untouched, and the walk continues. -/
theorem backward_skips_missing_vjp_C6_witness :
    backward_step vjpLNone fevalNone 3 gW6 1 = Except.ok (gW6, some (BWarn.noVjp 1)) ∧
    ((gW6.node? 0).map Node.grad = (gW6.node? 0).map Node.grad) ∧
    backward_loop vjpLNone fevalNone 3 gW6 [1, 5] =
      match backward_loop vjpLNone fevalNone 3 gW6 [5] with
      | Except.error e => Except.error e
      | Except.ok (g2, ws) => Except.ok (g2, BWarn.noVjp 1 :: ws) := by
  have h := backward_skips_missing_vjp_C6 vjpLNone fevalNone 3 gW6 1
    (mkNode 1 [some 0] (Tensor.mk 1 1 [3])) gW6 gW6 (by decide) (by decide) rfl rfl rfl
  exact ⟨h.1, h.2.1 0, h.2.2 [5]⟩

theorem zeros_like_isZero (t : Tensor) : (Tensor.zeros_like t).isZero = true := by
  rw [Tensor.isZero, Tensor.zeros_like, List.all_eq_true]
  intro x hx
  have := List.eq_of_mem_replicate hx
  subst this
  rfl

theorem lookup_mem {α : Type} [DecidableEq α] {β : Type} :
    ∀ (l : List (α × β)) (a : α) (b : β), List.lookup a l = some b → (a, b) ∈ l := by
  intro l
  induction l with
  | nil => intro a b h; cases h
  | cons q l ih =>
    intro a b h
    rcases q with ⟨k, v⟩
    rw [List.lookup_cons] at h
    rcases hk : (a == k) with _ | _
    · rw [hk] at h
      exact List.mem_cons_of_mem _ (ih a b h)
    · rw [hk] at h
      cases h
      have : a = k := by simpa using hk
      subst this
      exact List.mem_cons_self _ _

theorem jvp_step_keeps_lookup (jvpL : Nat → Option JvpFn) (g : Graph)
    (seedm : List (Nat × Tensor)) (root : Nat) :
    ∀ (T : List (Nat × Tensor)) (n : Nat),
      (List.lookup root T).isSome = true →
      (List.lookup root (jvp_step jvpL g seedm T n)).isSome = true := by
  intro T n h
  rw [jvp_step]
  rcases hn : g.node? n with _ | nd
  · exact h
  · dsimp only
    rw [List.lookup_cons]
    rcases hk : (root == n) with _ | _
    · exact h
    · rfl

theorem jvp_fold_keeps_lookup (jvpL : Nat → Option JvpFn) (g : Graph)
    (seedm : List (Nat × Tensor)) (root : Nat) :
    ∀ (order : List Nat) (T : List (Nat × Tensor)),
      (List.lookup root T).isSome = true →
      (List.lookup root (order.foldl (jvp_step jvpL g seedm) T)).isSome = true := by
  intro order
  induction order with
  | nil => intro T h; exact h
  | cons o rest ih =>
    intro T h
    rw [List.foldl_cons]
    exact ih _ (jvp_step_keeps_lookup jvpL g seedm root T o h)

theorem jvp_fold_lookup_present (jvpL : Nat → Option JvpFn) (g : Graph)
    (seedm : List (Nat × Tensor)) (root : Nat) (nd : Node)
    (hroot : g.node? root = some nd) :
    ∀ (order : List Nat) (T : List (Nat × Tensor)), root ∈ order →
      (List.lookup root (order.foldl (jvp_step jvpL g seedm) T)).isSome = true := by
  intro order
  induction order with
  | nil => intro T h; cases h
  | cons o rest ih =>
    intro T h
    rw [List.foldl_cons]
    rcases List.mem_cons.mp h with he | hm
    · subst he
      apply jvp_fold_keeps_lookup
      rw [jvp_step, hroot]
      dsimp only
      rw [List.lookup_cons]
      simp
    · exact ih _ hm

theorem jvp_fold_zero (jvpL : Nat → Option JvpFn) (g : Graph)
    (hZP : ZeroPreserving jvpL) :
    ∀ (order : List Nat) (T : List (Nat × Tensor)),
      (∀ q ∈ T, ∃ ndq : Node, g.node? q.1 = some ndq ∧ q.2.rows = ndq.value.rows ∧
        q.2.cols = ndq.value.cols ∧ q.2.isZero = true) →
      ∀ q ∈ order.foldl (jvp_step jvpL g []) T,
        ∃ ndq : Node, g.node? q.1 = some ndq ∧ q.2.rows = ndq.value.rows ∧
          q.2.cols = ndq.value.cols ∧ q.2.isZero = true := by
  intro order
  induction order with
  | nil => intro T hT; exact hT
  | cons o rest ih =>
    intro T hT
    rw [List.foldl_cons]
    apply ih
    intro q hq
    rw [jvp_step] at hq
    rcases hn : g.node? o with _ | nd
    · rw [hn] at hq
      exact hT q hq
    · rw [hn] at hq
      dsimp only at hq
      rcases List.mem_cons.mp hq with he | hm
      · subst he
        refine ⟨nd, hn, ?_⟩
        rcases hv : jvpL nd.op with _ | fn
        · simp only [hv]
          exact ⟨rfl, rfl, zeros_like_isZero nd.value⟩
        · simp only [hv]
          apply hZP nd.op fn hv g o nd _ hn
          intro p
          rcases hl : List.lookup p T with _ | t
          · rfl
          · rcases hT (p, t) (lookup_mem T p t hl) with ⟨_, _, _, _, hz⟩
            simpa using hz
      · exact hT q hm

/-- Claim C8: `jvp` with an empty seed map returns a zero tensor with the
same shape as the root's value, provided the root occurs in the walk order
and every registered JVP rule satisfies the external linearity contract
(all-zero input tangents give a zero tangent shaped like the node's value);
and in general each node's tangent starts as the seed-map entry when present
and as zeros shaped like the node's value otherwise (shown for nodes with no
registered rule, where the initial tangent is also the recorded one). -/
theorem jvp_zero_seed_C8 :
    ∀ (jvpL : Nat → Option JvpFn) (order : List Nat) (g : Graph) (root : Nat) (nd : Node),
      g.node? root = some nd →
      ZeroPreserving jvpL →
      root ∈ order →
      ( (jvp jvpL order g root []).rows = nd.value.rows
      ∧ (jvp jvpL order g root []).cols = nd.value.cols
      ∧ (jvp jvpL order g root []).isZero = true )
      ∧ (∀ (seedm : List (Nat × Tensor)) (n : Nat) (nd' : Node) (T : List (Nat × Tensor)),
          g.node? n = some nd' → jvpL nd'.op = none →
          jvp_step jvpL g seedm T n =
            (n, (List.lookup n seedm).getD (Tensor.zeros_like nd'.value)) :: T) := by
  intro jvpL order g root nd hroot hZP hmem
  constructor
  · have hpres := jvp_fold_lookup_present jvpL g [] root nd hroot order [] hmem
    have hinv := jvp_fold_zero jvpL g hZP order [] (by intro q hq; cases hq)
    rcases hl : List.lookup root (order.foldl (jvp_step jvpL g []) []) with _ | t
    · rw [hl] at hpres
      cases hpres
    · rcases hinv (root, t) (lookup_mem _ root t hl) with ⟨ndq, hq, hr, hcc, hz⟩
      rw [hroot] at hq
      cases hq
      have : jvp jvpL order g root [] = t := by
        rw [jvp, hroot]
        dsimp only
        rw [hl]
        rfl
      rw [this]
      exact ⟨hr, hcc, hz⟩
  · intro seedm n nd' T hn hv
    rw [jvp_step, hn]
    dsimp only
    rw [hv]
    rcases List.lookup n seedm with _ | s
    · rfl
    · rfl

/-- Witness for C8 at a concrete input: the single-node graph `gW8` with the
empty rule table (vacuously zero-preserving) and order `[0]` gives a 2x2 zero
jvp result, and the step on node 0 with an empty seed map records zeros. -/
theorem jvp_zero_seed_C8_witness :
    ( (jvp jvpLNone [0] gW8 0 []).rows = 2
    ∧ (jvp jvpLNone [0] gW8 0 []).cols = 2
    ∧ (jvp jvpLNone [0] gW8 0 []).isZero = true )
    ∧ jvp_step jvpLNone gW8 [] [] 0 =
        [(0, (List.lookup 0 ([] : List (Nat × Tensor))).getD
          (Tensor.zeros_like (Tensor.mk 2 2 [1, 2, 3, 4])))] := by
  have h := jvp_zero_seed_C8 jvpLNone [0] gW8 0 (mkNode 0 [] (Tensor.mk 2 2 [1, 2, 3, 4]))
    (by decide) (fun op fn hfn => by cases hfn) (by decide)
  exact ⟨h.1, h.2 [] 0 (mkNode 0 [] (Tensor.mk 2 2 [1, 2, 3, 4])) [] (by decide) rfl⟩

theorem stripSnap_fields {a b : Node} (h : stripSnap a = stripSnap b) :
    a.op = b.op ∧ a.inputs = b.inputs ∧ a.value = b.value ∧ a.grad = b.grad ∧
    a.requires_grad = b.requires_grad ∧ a.is_checkpoint = b.is_checkpoint ∧
    a.saved_inputs = b.saved_inputs ∧ a.has_saved_rng = b.has_saved_rng ∧
    a.saved_rng_blob = b.saved_rng_blob ∧ a.tape = b.tape := by
  cases a
  cases b
  simp only [stripSnap, Node.mk.injEq, and_true, true_and] at h
  obtain ⟨h1, h2, h3, h4, h5, h6, h7, h8, h9, h10⟩ := h
  exact ⟨h1, h2, h3, h4, h5, h6, h7, h8, h9, h10⟩

theorem stripSnap_set_value {a b : Node} (h : stripSnap a = stripSnap b) (v : Tensor) :
    stripSnap { a with value := v } = stripSnap { b with value := v } := by
  obtain ⟨h1, h2, _, h4, h5, h6, h7, h8, h9, h10⟩ := stripSnap_fields h
  cases a
  cases b
  dsimp only at h1 h2 h4 h5 h6 h7 h8 h9 h10
  subst h1 h2 h4 h5 h6 h7 h8 h9 h10
  rfl

theorem snapAgnostic_none {g1 g2 : Graph} (h : SnapAgnostic g1 g2) {i : Nat}
    (h1 : g1.node? i = none) : g2.node? i = none := by
  have hh := h i
  rw [h1] at hh
  rcases h2 : g2.node? i with _ | nd2
  · rfl
  · rw [h2] at hh
    cases hh

theorem snapAgnostic_some {g1 g2 : Graph} (h : SnapAgnostic g1 g2) {i : Nat} {nd1 : Node}
    (h1 : g1.node? i = some nd1) :
    ∃ nd2, g2.node? i = some nd2 ∧ stripSnap nd1 = stripSnap nd2 := by
  have hh := h i
  rw [h1] at hh
  rcases h2 : g2.node? i with _ | nd2
  · rw [h2] at hh
    cases hh
  · rw [h2] at hh
    exact ⟨nd2, rfl, by simpa using hh⟩

theorem snapAgnostic_setNode {g1 g2 : Graph} (h : SnapAgnostic g1 g2) {i : Nat}
    {nd1 nd2 : Node} (h1 : g1.node? i = some nd1) (h2 : g2.node? i = some nd2)
    {nd1' nd2' : Node} (hstrip : stripSnap nd1' = stripSnap nd2') :
    SnapAgnostic (g1.setNode i nd1') (g2.setNode i nd2') := by
  intro j
  by_cases hij : i = j
  · subst hij
    rw [node?_setNode_self nd1' h1, node?_setNode_self nd2' h2]
    simpa using hstrip
  · rw [node?_setNode_ne g1 nd1' hij, node?_setNode_ne g2 nd2' hij]
    exact h j

theorem foldlM_snap_rel {α : Type} (f1 f2 : Graph → α → Except Graph Graph)
    (R : Graph → Graph → Prop) (l : List α)
    (hstep : ∀ a b k, R a b →
      (∀ a', f1 a k = Except.ok a' → ∃ b', f2 b k = Except.ok b' ∧ R a' b')
      ∧ (∀ a', f1 a k = Except.error a' → ∃ b', f2 b k = Except.error b' ∧ R a' b')) :
    ∀ a b, R a b →
      (∀ a', l.foldlM f1 a = Except.ok a' →
        ∃ b', l.foldlM f2 b = Except.ok b' ∧ R a' b')
      ∧ (∀ a', l.foldlM f1 a = Except.error a' →
        ∃ b', l.foldlM f2 b = Except.error b' ∧ R a' b') := by
  induction l with
  | nil =>
    intro a b hR
    constructor
    · intro a' h
      rw [List.foldlM_nil] at h
      cases h
      exact ⟨b, rfl, hR⟩
    · intro a' h
      rw [List.foldlM_nil] at h
      cases h
  | cons k l ih =>
    intro a b hR
    rcases hf1 : f1 a k with a1 | a1
    · obtain ⟨b1, hf2, hR1⟩ := (hstep a b k hR).2 a1 hf1
      constructor
      · intro a' h
        rw [List.foldlM_cons, hf1, except_error_bind] at h
        cases h
      · intro a' h
        rw [List.foldlM_cons, hf1, except_error_bind] at h
        cases h
        exact ⟨b1, by rw [List.foldlM_cons, hf2, except_error_bind], hR1⟩
    · obtain ⟨b1, hf2, hR1⟩ := (hstep a b k hR).1 a1 hf1
      have hrest := ih a1 b1 hR1
      constructor
      · intro a' h
        rw [List.foldlM_cons, hf1, except_ok_bind] at h
        obtain ⟨b', hb', hRb⟩ := hrest.1 a' h
        exact ⟨b', by rw [List.foldlM_cons, hf2, except_ok_bind]; exact hb', hRb⟩
      · intro a' h
        rw [List.foldlM_cons, hf1, except_ok_bind] at h
        obtain ⟨b', hb', hRb⟩ := hrest.2 a' h
        exact ⟨b', by rw [List.foldlM_cons, hf2, except_ok_bind]; exact hb', hRb⟩

theorem rc_slot_step_rel (feval : FEval) (fuel : Nat) (nd : Node)
    (ihrec : ∀ (g1 g2 : Graph) (i : Nat), SnapAgnostic g1 g2 →
      (recompute_subgraph feval fuel g1 i).1 = (recompute_subgraph feval fuel g2 i).1
      ∧ SnapAgnostic (recompute_subgraph feval fuel g1 i).2
          (recompute_subgraph feval fuel g2 i).2) :
    ∀ (a b : Graph) (k : Nat), SnapAgnostic a b →
      (∀ a', rc_slot_step (recompute_subgraph feval fuel) nd a k = Except.ok a' →
        ∃ b', rc_slot_step (recompute_subgraph feval fuel) nd b k = Except.ok b' ∧
          SnapAgnostic a' b')
      ∧ (∀ a', rc_slot_step (recompute_subgraph feval fuel) nd a k = Except.error a' →
        ∃ b', rc_slot_step (recompute_subgraph feval fuel) nd b k = Except.error b' ∧
          SnapAgnostic a' b') := by
  intro a b k hR
  rcases hk1 : nd.saved_inputs[k]? with _ | sv
  case none =>
    have e1 : rc_slot_step (recompute_subgraph feval fuel) nd a k = Except.ok a := by
      simp [rc_slot_step, hk1]
    have e2 : rc_slot_step (recompute_subgraph feval fuel) nd b k = Except.ok b := by
      simp [rc_slot_step, hk1]
    constructor
    · intro a' ha'
      rw [e1] at ha'
      cases ha'
      exact ⟨_, e2, hR⟩
    · intro a' ha'
      rw [e1] at ha'
      cases ha'
  case some =>
    rcases hk2 : nd.inputs[k]? with _ | pOpt
    case none =>
      have e1 : rc_slot_step (recompute_subgraph feval fuel) nd a k = Except.ok a := by
        simp [rc_slot_step, hk1, hk2]
      have e2 : rc_slot_step (recompute_subgraph feval fuel) nd b k = Except.ok b := by
        simp [rc_slot_step, hk1, hk2]
      constructor
      · intro a' ha'
        rw [e1] at ha'
        cases ha'
        exact ⟨_, e2, hR⟩
      · intro a' ha'
        rw [e1] at ha'
        cases ha'
    case some =>
      rcases pOpt with _ | p
      case none =>
        have e1 : rc_slot_step (recompute_subgraph feval fuel) nd a k = Except.ok a := by
          simp [rc_slot_step, hk1, hk2]
        have e2 : rc_slot_step (recompute_subgraph feval fuel) nd b k = Except.ok b := by
          simp [rc_slot_step, hk1, hk2]
        constructor
        · intro a' ha'
          rw [e1] at ha'
          cases ha'
          exact ⟨_, e2, hR⟩
        · intro a' ha'
          rw [e1] at ha'
          cases ha'
      case some =>
        rcases hsn : sv.node with _ | sid
        case none =>
          rcases hp1 : a.node? p with _ | pnd1
          case none =>
            have hp2 := snapAgnostic_none hR hp1
            have e1 : rc_slot_step (recompute_subgraph feval fuel) nd a k = Except.ok a := by
              simp [rc_slot_step, hk1, hk2, hsn, hp1]
            have e2 : rc_slot_step (recompute_subgraph feval fuel) nd b k = Except.ok b := by
              simp [rc_slot_step, hk1, hk2, hsn, hp2]
            constructor
            · intro a' ha'
              rw [e1] at ha'
              cases ha'
              exact ⟨_, e2, hR⟩
            · intro a' ha'
              rw [e1] at ha'
              cases ha'
          case some =>
            obtain ⟨pnd2, hp2, hstrip⟩ := snapAgnostic_some hR hp1
            obtain ⟨_, _, hval, _, _, hck, _, _, _, _⟩ := stripSnap_fields hstrip
            by_cases hz : pnd1.value.size = 0
            case pos =>
              have hz2 : pnd2.value.size = 0 := by rw [← hval]; exact hz
              rcases hcb : pnd1.is_checkpoint with _ | _
              case false =>
                have hcb2 : pnd2.is_checkpoint = false := by rw [← hck]; exact hcb
                have e1 : rc_slot_step (recompute_subgraph feval fuel) nd a k = Except.error a := by
                  simp [rc_slot_step, hk1, hk2, hsn, hp1, hz, hcb]
                have e2 : rc_slot_step (recompute_subgraph feval fuel) nd b k = Except.error b := by
                  simp [rc_slot_step, hk1, hk2, hsn, hp2, hz2, hcb2]
                constructor
                · intro a' ha'
                  rw [e1] at ha'
                  cases ha'
                · intro a' ha'
                  rw [e1] at ha'
                  cases ha'
                  exact ⟨_, e2, hR⟩
              case true =>
                have hcb2 : pnd2.is_checkpoint = true := by rw [← hck]; exact hcb
                obtain ⟨hflag, hRrec⟩ := ihrec a b p hR
                rcases hr1 : recompute_subgraph feval fuel a p with ⟨b1, ga⟩
                rcases hr2 : recompute_subgraph feval fuel b p with ⟨b2, gb⟩
                have hb12 : b1 = b2 := by
                  rw [hr1, hr2] at hflag
                  exact hflag
                have hRg : SnapAgnostic ga gb := by
                  rw [hr1, hr2] at hRrec
                  exact hRrec
                subst hb12
                rcases b1
                case false =>
                  have e1 : rc_slot_step (recompute_subgraph feval fuel) nd a k = Except.error ga := by
                    simp [rc_slot_step, hk1, hk2, hsn, hp1, hz, hcb, hr1]
                  have e2 : rc_slot_step (recompute_subgraph feval fuel) nd b k = Except.error gb := by
                    simp [rc_slot_step, hk1, hk2, hsn, hp2, hz2, hcb2, hr2]
                  constructor
                  · intro a' ha'
                    rw [e1] at ha'
                    cases ha'
                  · intro a' ha'
                    rw [e1] at ha'
                    cases ha'
                    exact ⟨_, e2, hRg⟩
                case true =>
                  have e1 : rc_slot_step (recompute_subgraph feval fuel) nd a k = Except.ok ga := by
                    simp [rc_slot_step, hk1, hk2, hsn, hp1, hz, hcb, hr1]
                  have e2 : rc_slot_step (recompute_subgraph feval fuel) nd b k = Except.ok gb := by
                    simp [rc_slot_step, hk1, hk2, hsn, hp2, hz2, hcb2, hr2]
                  constructor
                  · intro a' ha'
                    rw [e1] at ha'
                    cases ha'
                    exact ⟨_, e2, hRg⟩
                  · intro a' ha'
                    rw [e1] at ha'
                    cases ha'
            case neg =>
              have hz2 : ¬pnd2.value.size = 0 := by rw [← hval]; exact hz
              have e1 : rc_slot_step (recompute_subgraph feval fuel) nd a k = Except.ok a := by
                simp [rc_slot_step, hk1, hk2, hsn, hp1, hz]
              have e2 : rc_slot_step (recompute_subgraph feval fuel) nd b k = Except.ok b := by
                simp [rc_slot_step, hk1, hk2, hsn, hp2, hz2]
              constructor
              · intro a' ha'
                rw [e1] at ha'
                cases ha'
                exact ⟨_, e2, hR⟩
              · intro a' ha'
                rw [e1] at ha'
                cases ha'
        case some =>
          rcases hp1 : a.node? p with _ | pnd1
          case none =>
            have hp2 := snapAgnostic_none hR hp1
            have e1 : rc_slot_step (recompute_subgraph feval fuel) nd a k = Except.ok a := by
              simp [rc_slot_step, hk1, hk2, hsn, hp1]
            have e2 : rc_slot_step (recompute_subgraph feval fuel) nd b k = Except.ok b := by
              simp [rc_slot_step, hk1, hk2, hsn, hp2]
            constructor
            · intro a' ha'
              rw [e1] at ha'
              cases ha'
              exact ⟨_, e2, hR⟩
            · intro a' ha'
              rw [e1] at ha'
              cases ha'
          case some =>
            obtain ⟨pnd2, hp2, hstrip⟩ := snapAgnostic_some hR hp1
            rcases hs1 : a.node? sid with _ | snd1
            case none =>
              have hs2 := snapAgnostic_none hR hs1
              have e1 : rc_slot_step (recompute_subgraph feval fuel) nd a k = Except.ok a := by
                simp [rc_slot_step, hk1, hk2, hsn, hp1, hs1]
              have e2 : rc_slot_step (recompute_subgraph feval fuel) nd b k = Except.ok b := by
                simp [rc_slot_step, hk1, hk2, hsn, hp2, hs2]
              constructor
              · intro a' ha'
                rw [e1] at ha'
                cases ha'
                exact ⟨_, e2, hR⟩
              · intro a' ha'
                rw [e1] at ha'
                cases ha'
            case some =>
              obtain ⟨snd2, hs2, hstripS⟩ := snapAgnostic_some hR hs1
              obtain ⟨_, _, hvalS, _, _, _, _, _, _, _⟩ := stripSnap_fields hstripS
              have hRset : SnapAgnostic (a.setNode p { pnd1 with value := snd1.value })
                  (b.setNode p { pnd2 with value := snd2.value }) := by
                apply snapAgnostic_setNode hR hp1 hp2
                rw [hvalS]
                exact stripSnap_set_value hstrip snd2.value
              have e1 : rc_slot_step (recompute_subgraph feval fuel) nd a k = Except.ok (a.setNode p { pnd1 with value := snd1.value }) := by
                simp [rc_slot_step, hk1, hk2, hsn, hp1, hs1]
              have e2 : rc_slot_step (recompute_subgraph feval fuel) nd b k = Except.ok (b.setNode p { pnd2 with value := snd2.value }) := by
                simp [rc_slot_step, hk1, hk2, hsn, hp2, hs2]
              constructor
              · intro a' ha'
                rw [e1] at ha'
                cases ha'
                exact ⟨_, e2, hRset⟩
              · intro a' ha'
                rw [e1] at ha'
                cases ha'

theorem recompute_snap_oblivious (feval : FEval)
    (hfeval : ∀ h1 h2 j, SnapAgnostic h1 h2 → feval h1 j = feval h2 j) :
    ∀ (fuel : Nat) (g1 g2 : Graph) (i : Nat), SnapAgnostic g1 g2 →
      (recompute_subgraph feval fuel g1 i).1 = (recompute_subgraph feval fuel g2 i).1
      ∧ SnapAgnostic (recompute_subgraph feval fuel g1 i).2
          (recompute_subgraph feval fuel g2 i).2 := by
  intro fuel
  induction fuel with
  | zero => intro g1 g2 i hR; exact ⟨rfl, hR⟩
  | succ fuel ih =>
    intro g1 g2 i hR
    rcases hn1 : g1.node? i with _ | nd1
    · have hn2 := snapAgnostic_none hR hn1
      have e1 : recompute_subgraph feval (fuel + 1) g1 i = (false, g1) := by
        simp [recompute_subgraph, hn1]
      have e2 : recompute_subgraph feval (fuel + 1) g2 i = (false, g2) := by
        simp [recompute_subgraph, hn2]
      rw [e1, e2]
      exact ⟨rfl, hR⟩
    · obtain ⟨nd2, hn2, hstrip⟩ := snapAgnostic_some hR hn1
      obtain ⟨hop, hin, hval, hgrad, hreq, hck, hsinp, hrng, hblob, htape⟩ :=
        stripSnap_fields hstrip
      rcases hc : nd1.is_checkpoint with _ | _
      · have hc2 : nd2.is_checkpoint = false := by rw [← hck]; exact hc
        have e1 : recompute_subgraph feval (fuel + 1) g1 i = (false, g1) := by
          simp [recompute_subgraph, hn1, hc]
        have e2 : recompute_subgraph feval (fuel + 1) g2 i = (false, g2) := by
          simp [recompute_subgraph, hn2, hc2]
        rw [e1, e2]
        exact ⟨rfl, hR⟩
      · have hc2 : nd2.is_checkpoint = true := by rw [← hck]; exact hc
        rcases hemp : nd1.saved_inputs.isEmpty with _ | _
        · have hemp2 : nd2.saved_inputs.isEmpty = false := by rw [← hsinp]; exact hemp
          have hfun : rc_slot_step (recompute_subgraph feval fuel) nd2 =
              rc_slot_step (recompute_subgraph feval fuel) nd1 := by
            funext b k
            rw [rc_slot_step, rc_slot_step, ← hsinp, ← hin]
          have hslots : min nd2.saved_inputs.length nd2.inputs.length =
              min nd1.saved_inputs.length nd1.inputs.length := by
            rw [hsinp, hin]
          have hfold := foldlM_snap_rel (rc_slot_step (recompute_subgraph feval fuel) nd1)
            (rc_slot_step (recompute_subgraph feval fuel) nd1) SnapAgnostic
            (List.range (min nd1.saved_inputs.length nd1.inputs.length))
            (rc_slot_step_rel feval fuel nd1 ih) g1 g2 hR
          rcases hf1 : (List.range (min nd1.saved_inputs.length nd1.inputs.length)).foldlM
              (rc_slot_step (recompute_subgraph feval fuel) nd1) g1 with a1 | a1
          · obtain ⟨b1, hf2, hR1⟩ := hfold.2 a1 hf1
            have e1 : recompute_subgraph feval (fuel + 1) g1 i = (false, a1) := by
              simp [recompute_subgraph, hn1, hc, hemp, hf1]
            have e2 : recompute_subgraph feval (fuel + 1) g2 i = (false, b1) := by
              simp [recompute_subgraph, hn2, hc2, hemp2, hslots, hfun, hf2]
            rw [e1, e2]
            exact ⟨rfl, hR1⟩
          · obtain ⟨b1, hf2, hR1⟩ := hfold.1 a1 hf1
            have hev := hfeval a1 b1 i hR1
            rcases he1 : feval a1 i with _ | t
            · have he2 : feval b1 i = none := by rw [← hev]; exact he1
              have e1 : recompute_subgraph feval (fuel + 1) g1 i = (false, a1) := by
                simp [recompute_subgraph, hn1, hc, hemp, hf1, he1]
              have e2 : recompute_subgraph feval (fuel + 1) g2 i = (false, b1) := by
                simp [recompute_subgraph, hn2, hc2, hemp2, hslots, hfun, hf2, he2]
              rw [e1, e2]
              exact ⟨rfl, hR1⟩
            · have he2 : feval b1 i = some t := by rw [← hev]; exact he1
              rcases hni1 : a1.node? i with _ | nd1p
              · have hni2 := snapAgnostic_none hR1 hni1
                have e1 : recompute_subgraph feval (fuel + 1) g1 i = (true, a1) := by
                  simp [recompute_subgraph, hn1, hc, hemp, hf1, he1, hni1]
                have e2 : recompute_subgraph feval (fuel + 1) g2 i = (true, b1) := by
                  simp [recompute_subgraph, hn2, hc2, hemp2, hslots, hfun, hf2, he2, hni2]
                rw [e1, e2]
                exact ⟨rfl, hR1⟩
              · obtain ⟨nd2p, hni2, hstripP⟩ := snapAgnostic_some hR1 hni1
                have e1 : recompute_subgraph feval (fuel + 1) g1 i =
                    (true, a1.setNode i { nd1p with value := t }) := by
                  simp [recompute_subgraph, hn1, hc, hemp, hf1, he1, hni1]
                have e2 : recompute_subgraph feval (fuel + 1) g2 i =
                    (true, b1.setNode i { nd2p with value := t }) := by
                  simp [recompute_subgraph, hn2, hc2, hemp2, hslots, hfun, hf2, he2, hni2]
                rw [e1, e2]
                exact ⟨rfl, snapAgnostic_setNode hR1 hni1 hni2 (stripSnap_set_value hstripP t)⟩
        · have hemp2 : nd2.saved_inputs.isEmpty = true := by rw [← hsinp]; exact hemp
          have e1 : recompute_subgraph feval (fuel + 1) g1 i = (false, g1) := by
            simp [recompute_subgraph, hn1, hc, hemp]
          have e2 : recompute_subgraph feval (fuel + 1) g2 i = (false, g2) := by
            simp [recompute_subgraph, hn2, hc2, hemp2]
          rw [e1, e2]
          exact ⟨rfl, hR⟩

theorem markedNode_saved_inputs (g : Graph) (nd : Node) (opts : CheckpointOptions) :
    (markedNode g nd opts).saved_inputs = nd.inputs.map (fun _ => Value.mk none) := by
  rw [markedNode]
  have hmap : ∀ (f : Option Nat → Tensor × Value),
      (∀ x, (f x).2 = Value.mk none) →
      (nd.inputs.map f).map Prod.snd = nd.inputs.map (fun _ => Value.mk none) := by
    intro f hf
    rw [List.map_map]
    apply List.map_congr_left
    intro x _
    exact hf x
  cases opts.save_rng
  · dsimp only
    apply hmap
    intro x
    rcases x with _ | p
    · rfl
    · dsimp only
      rcases g.node? p with _ | pnd
      · rfl
      · dsimp only
        by_cases hz : pnd.value.size ≠ 0
        · rw [if_pos hz]
        · rw [if_neg hz]
  · dsimp only
    apply hmap
    intro x
    rcases x with _ | p
    · rfl
    · dsimp only
      rcases g.node? p with _ | pnd
      · rfl
      · dsimp only
        by_cases hz : pnd.value.size ≠ 0
        · rw [if_pos hz]
        · rw [if_neg hz]

theorem capture_step_saved_inputs (g : Graph) (i j : Nat) :
    ((capture_step g i).node? j).map Node.saved_inputs = (g.node? j).map Node.saved_inputs := by
  rw [capture_step]
  rcases hn : g.node? i with _ | nd
  · rfl
  · try dsimp only
    rcases hc : nd.is_checkpoint with _ | _
    · rfl
    · try dsimp only
      refine map_node?_setNode Node.saved_inputs _ hn ?_ j
      rfl

theorem capture_saved_inputs (order : List Nat) :
    ∀ (g : Graph) (j : Nat),
      ((capture_checkpoint_snapshots order g).node? j).map Node.saved_inputs =
        (g.node? j).map Node.saved_inputs := by
  induction order with
  | nil => intro g j; rfl
  | cons i rest ih =>
    intro g j
    rw [capture_checkpoint_snapshots, List.foldl_cons]
    have h1 := ih (capture_step g i) j
    rw [capture_checkpoint_snapshots] at h1
    rw [h1]
    exact capture_step_saved_inputs g i j

/-- Claim C10: every placeholder that `mark_node_checkpoint` stores into
`saved_inputs` carries a null node handle, in both the parent-has-value and
the parent-empty branches (one placeholder per input);
`capture_checkpoint_snapshots` never writes `saved_inputs` at all; and
`recompute_subgraph` never reads `saved_input_tensors`: on any two graphs
that agree on everything except the snapshot payloads (and for any forward
evaluator that, per its external contract, reads only op tags and values),
it returns the same success flag and graphs again agreeing outside the
snapshots — so the restore branch, which is gated on a non-null handle, can
never fire for nodes checkpointed through these entry points, and
recomputation relies entirely on parents' live values or recursive
recomputation. -/
theorem checkpoint_placeholders_null_C10 :
    (∀ (g : Graph) (i : Nat) (opts : CheckpointOptions) (nd : Node),
      g.node? i = some nd → nd.is_checkpoint = false →
      ∃ nd', (mark_node_checkpoint g i opts).node? i = some nd' ∧
        nd'.saved_inputs.length = nd.inputs.length ∧
        ∀ v ∈ nd'.saved_inputs, v.node = none)
    ∧ (∀ (order : List Nat) (g : Graph) (j : Nat),
      ((capture_checkpoint_snapshots order g).node? j).map Node.saved_inputs =
        (g.node? j).map Node.saved_inputs)
    ∧ (∀ (feval : FEval), (∀ h1 h2 j, SnapAgnostic h1 h2 → feval h1 j = feval h2 j) →
      ∀ (fuel : Nat) (g1 g2 : Graph) (i : Nat), SnapAgnostic g1 g2 →
      (recompute_subgraph feval fuel g1 i).1 = (recompute_subgraph feval fuel g2 i).1
      ∧ SnapAgnostic (recompute_subgraph feval fuel g1 i).2
          (recompute_subgraph feval fuel g2 i).2) := by
  refine ⟨?_, ?_, ?_⟩
  · intro g i opts nd h hc
    have hmark : mark_node_checkpoint g i opts = g.setNode i (markedNode g nd opts) := by
      simp [mark_node_checkpoint, h, hc]
    refine ⟨markedNode g nd opts, ?_, ?_, ?_⟩
    · rw [hmark]
      exact node?_setNode_self _ h
    · rw [markedNode_saved_inputs]
      exact List.length_map _ _
    · intro v hv
      rw [markedNode_saved_inputs] at hv
      rcases List.mem_map.mp hv with ⟨x, _, hx⟩
      rw [← hx]
  · intro order g j
    exact capture_saved_inputs order g j
  · intro feval hfeval fuel g1 g2 i hR
    exact recompute_snap_oblivious feval hfeval fuel g1 g2 i hR

/-- Witness for C10 at concrete inputs: marking node 0 of `gW3` stores only
null-handle placeholders; `capture_checkpoint_snapshots` on `gC2` leaves node
1's `saved_inputs` untouched; and `recompute_subgraph` returns the same
success flag on `gW10a` and `gW10b`, which differ exactly in node 1's stored
snapshot. -/
theorem checkpoint_placeholders_null_C10_witness :
    (∃ nd', (mark_node_checkpoint gW3 0 (CheckpointOptions.mk false)).node? 0 = some nd' ∧
      nd'.saved_inputs.length = (mkNode 0 [] Tensor.empty).inputs.length ∧
      ∀ v ∈ nd'.saved_inputs, v.node = none) ∧
    ((capture_checkpoint_snapshots [1] gC2).node? 1).map Node.saved_inputs =
      (gC2.node? 1).map Node.saved_inputs ∧
    (recompute_subgraph fevalC2 9 gW10a 1).1 = (recompute_subgraph fevalC2 9 gW10b 1).1 := by
  obtain ⟨h1, h2, h3⟩ := checkpoint_placeholders_null_C10
  refine ⟨?_, h2 [1] gC2 1, ?_⟩
  · exact h1 gW3 0 (CheckpointOptions.mk false) (mkNode 0 [] Tensor.empty) rfl rfl
  · refine (h3 fevalC2 (fun _ _ _ _ => rfl) 9 gW10a gW10b 1 ?_).1
    intro j
    match j with
    | 0 => rfl
    | 1 => rfl
    | n + 2 => rfl

theorem node?_ne_none_of_lt {g : Graph} {j : Nat} (h : j < g.len) : g.node? j ≠ none := by
  obtain ⟨nd, hnd⟩ := node?_of_lt h
  rw [hnd]
  intro hc
  cases hc

theorem protect_phase_sub (g : Graph) :
    ∀ (fuel : Nat) (q prot prot' : List Nat),
      protect_phase g fuel q prot = some prot' → ∀ x ∈ prot, x ∈ prot' := by
  intro fuel
  induction fuel with
  | zero => intro q prot prot' h; cases h
  | succ fuel ih =>
    intro q prot prot' h x hx
    rcases q with _ | ⟨n, rest⟩
    · rw [protect_phase] at h
      cases h
      exact hx
    · rw [protect_phase] at h
      by_cases hn : n ∈ prot
      · rw [if_pos hn] at h
        exact ih rest prot prot' h x hx
      · rw [if_neg hn] at h
        rcases hnode : g.node? n with _ | nd
        · rw [hnode] at h
          exact ih rest prot prot' h x hx
        · rw [hnode] at h
          dsimp only at h
          rcases hc : nd.is_checkpoint with _ | _
          · rw [hc] at h
            simp only [Bool.false_eq_true, if_false] at h
            exact ih _ _ prot' h x (List.mem_cons_of_mem n hx)
          · rw [hc] at h
            simp only [if_true] at h
            exact ih _ _ prot' h x (List.mem_cons_of_mem n hx)

theorem protect_phase_queue (g : Graph) :
    ∀ (fuel : Nat) (q prot prot' : List Nat),
      protect_phase g fuel q prot = some prot' →
      ∀ j ∈ q, j < g.len → j ∈ prot' := by
  intro fuel
  induction fuel with
  | zero => intro q prot prot' h; cases h
  | succ fuel ih =>
    intro q prot prot' h j hj hjl
    rcases q with _ | ⟨n, rest⟩
    · cases hj
    · rw [protect_phase] at h
      rcases List.mem_cons.mp hj with he | hm
      · subst he
        by_cases hn : j ∈ prot
        · rw [if_pos hn] at h
          exact protect_phase_sub g fuel rest prot prot' h j hn
        · rw [if_neg hn] at h
          rcases hnode : g.node? j with _ | nd
          · exact absurd hnode (node?_ne_none_of_lt hjl)
          · rw [hnode] at h
            dsimp only at h
            rcases hc : nd.is_checkpoint with _ | _
            · rw [hc] at h
              simp only [Bool.false_eq_true, if_false] at h
              exact protect_phase_sub g fuel _ _ prot' h j (List.mem_cons_self j prot)
            · rw [hc] at h
              simp only [if_true] at h
              exact protect_phase_sub g fuel _ _ prot' h j (List.mem_cons_self j prot)
      · by_cases hn : n ∈ prot
        · rw [if_pos hn] at h
          exact ih rest prot prot' h j hm hjl
        · rw [if_neg hn] at h
          rcases hnode : g.node? n with _ | nd
          · rw [hnode] at h
            exact ih rest prot prot' h j hm hjl
          · rw [hnode] at h
            dsimp only at h
            rcases hc : nd.is_checkpoint with _ | _
            · rw [hc] at h
              simp only [Bool.false_eq_true, if_false] at h
              exact ih _ _ prot' h j (List.mem_append_left _ hm) hjl
            · rw [hc] at h
              simp only [if_true] at h
              exact ih rest _ prot' h j hm hjl

theorem sweep_phase_seen (prot : List Nat) :
    ∀ (fuel : Nat) (g : Graph) (q seen : List Nat) (g' : Graph) (seen' : List Nat),
      sweep_phase prot fuel g q seen = some (g', seen') → ∀ x ∈ seen, x ∈ seen' := by
  intro fuel
  induction fuel with
  | zero => intro g q seen g' seen' h; cases h
  | succ fuel ih =>
    intro g q seen g' seen' h x hx
    rcases q with _ | ⟨n, rest⟩
    · rw [sweep_phase] at h
      cases h
      exact hx
    · rw [sweep_phase] at h
      by_cases hn : n ∈ seen
      · rw [if_pos hn] at h
        exact ih g rest seen g' seen' h x hx
      · rw [if_neg hn] at h
        rcases hnode : g.node? n with _ | nd
        · rw [hnode] at h
          exact ih g rest seen g' seen' h x hx
        · rw [hnode] at h
          dsimp only at h
          exact ih _ _ _ g' seen' h x (List.mem_cons_of_mem n hx)

theorem sweep_phase_len (prot : List Nat) :
    ∀ (fuel : Nat) (g : Graph) (q seen : List Nat) (g' : Graph) (seen' : List Nat),
      sweep_phase prot fuel g q seen = some (g', seen') → g'.len = g.len := by
  intro fuel
  induction fuel with
  | zero => intro g q seen g' seen' h; cases h
  | succ fuel ih =>
    intro g q seen g' seen' h
    rcases q with _ | ⟨n, rest⟩
    · rw [sweep_phase] at h
      cases h
      rfl
    · rw [sweep_phase] at h
      by_cases hn : n ∈ seen
      · rw [if_pos hn] at h
        exact ih g rest seen g' seen' h
      · rw [if_neg hn] at h
        rcases hnode : g.node? n with _ | nd
        · rw [hnode] at h
          exact ih g rest seen g' seen' h
        · rw [hnode] at h
          dsimp only at h
          by_cases hp : n ∈ prot
          · rw [if_pos hp] at h
            exact ih g _ _ g' seen' h
          · rw [if_neg hp] at h
            have := ih _ _ _ g' seen' h
            rw [this, len_setNode]

theorem sweep_phase_queue (prot : List Nat) :
    ∀ (fuel : Nat) (g : Graph) (q seen : List Nat) (g' : Graph) (seen' : List Nat),
      sweep_phase prot fuel g q seen = some (g', seen') →
      ∀ j ∈ q, j < g.len → j ∈ seen' := by
  intro fuel
  induction fuel with
  | zero => intro g q seen g' seen' h; cases h
  | succ fuel ih =>
    intro g q seen g' seen' h j hj hjl
    rcases q with _ | ⟨n, rest⟩
    · cases hj
    · rw [sweep_phase] at h
      rcases List.mem_cons.mp hj with he | hm
      · subst he
        by_cases hn : j ∈ seen
        · rw [if_pos hn] at h
          exact sweep_phase_seen prot fuel g rest seen g' seen' h j hn
        · rw [if_neg hn] at h
          rcases hnode : g.node? j with _ | nd
          · exact absurd hnode (node?_ne_none_of_lt hjl)
          · rw [hnode] at h
            dsimp only at h
            exact sweep_phase_seen prot fuel _ _ _ g' seen' h j (List.mem_cons_self j seen)
      · by_cases hn : n ∈ seen
        · rw [if_pos hn] at h
          exact ih g rest seen g' seen' h j hm hjl
        · rw [if_neg hn] at h
          rcases hnode : g.node? n with _ | nd
          · rw [hnode] at h
            exact ih g rest seen g' seen' h j hm hjl
          · rw [hnode] at h
            dsimp only at h
            by_cases hp : n ∈ prot
            · rw [if_pos hp] at h
              exact ih g _ _ g' seen' h j (List.mem_append_left _ hm) hjl
            · rw [if_neg hp] at h
              refine ih _ _ _ g' seen' h j (List.mem_append_left _ hm) ?_
              rw [len_setNode]
              exact hjl

theorem sweep_phase_nodes (prot : List Nat) :
    ∀ (fuel : Nat) (g : Graph) (q seen : List Nat) (g' : Graph) (seen' : List Nat),
      sweep_phase prot fuel g q seen = some (g', seen') →
      (∀ i, (i ∈ prot ∨ i ∈ seen ∨ i ∉ seen') → g'.node? i = g.node? i)
      ∧ (∀ i, i ∉ prot → i ∉ seen → i ∈ seen' →
          g'.node? i = (g.node? i).map
            (fun nd => { nd with value := Tensor.empty, tape := [] })) := by
  intro fuel
  induction fuel with
  | zero => intro g q seen g' seen' h; cases h
  | succ fuel ih =>
    intro g q seen g' seen' h
    rcases q with _ | ⟨n, rest⟩
    · rw [sweep_phase] at h
      cases h
      constructor
      · intro i _
        rfl
      · intro i _ hns hs
        exact absurd hs hns
    · rw [sweep_phase] at h
      by_cases hn : n ∈ seen
      · rw [if_pos hn] at h
        exact ih g rest seen g' seen' h
      · rw [if_neg hn] at h
        rcases hnode : g.node? n with _ | nd
        · rw [hnode] at h
          exact ih g rest seen g' seen' h
        · rw [hnode] at h
          dsimp only at h
          have hseen := sweep_phase_seen prot fuel _ _ _ g' seen' h
          have hnseen : n ∈ seen' := hseen n (List.mem_cons_self n seen)
          by_cases hp : n ∈ prot
          · rw [if_pos hp] at h
            have ihh := ih g _ _ g' seen' h
            constructor
            · intro i hi
              apply ihh.1 i
              rcases hi with h1 | h2 | h3
              · exact Or.inl h1
              · exact Or.inr (Or.inl (List.mem_cons_of_mem n h2))
              · exact Or.inr (Or.inr h3)
            · intro i hip his hs
              by_cases hin : i = n
              · subst hin
                exact absurd hp hip
              · exact ihh.2 i hip (by
                  intro hc
                  rcases List.mem_cons.mp hc with he | hm
                  · exact hin he
                  · exact his hm) hs
          · rw [if_neg hp] at h
            have ihh := ih _ _ _ g' seen' h
            constructor
            · intro i hi
              have hin : i ≠ n := by
                intro he
                subst he
                rcases hi with h1 | h2 | h3
                · exact hp h1
                · exact hn h2
                · exact h3 hnseen
              have h1 : g'.node? i =
                  (g.setNode n { nd with value := Tensor.empty, tape := [] }).node? i := by
                apply ihh.1 i
                rcases hi with ha | hb | hc
                · exact Or.inl ha
                · exact Or.inr (Or.inl (List.mem_cons_of_mem n hb))
                · exact Or.inr (Or.inr hc)
              rw [h1]
              exact node?_setNode_ne g _ (fun he => hin he.symm)
            · intro i hip his hs
              by_cases hin : i = n
              · subst hin
                have h1 : g'.node? i =
                    (g.setNode i { nd with value := Tensor.empty, tape := [] }).node? i :=
                  ihh.1 i (Or.inr (Or.inl (List.mem_cons_self i seen)))
                rw [h1, node?_setNode_self _ hnode, hnode]
                rfl
              · have h1 := ihh.2 i hip (by
                  intro hc
                  rcases List.mem_cons.mp hc with he | hm
                  · exact hin he
                  · exact his hm) hs
                rw [h1, node?_setNode_ne g _ (fun he => hin he.symm)]

theorem sweep_phase_closure (prot : List Nat) :
    ∀ (fuel : Nat) (g : Graph) (q seen : List Nat) (g' : Graph) (seen' : List Nat),
      sweep_phase prot fuel g q seen = some (g', seen') →
      (∀ i ∈ seen, ∀ nd : Node, g.node? i = some nd →
        ∀ j, some j ∈ nd.inputs → j < g.len → (j ∈ seen ∨ j ∈ q)) →
      ∀ i ∈ seen', ∀ nd : Node, g.node? i = some nd →
        ∀ j, some j ∈ nd.inputs → j < g.len → j ∈ seen' := by
  intro fuel
  induction fuel with
  | zero => intro g q seen g' seen' h; cases h
  | succ fuel ih =>
    intro g q seen g' seen' h hinv
    rcases q with _ | ⟨n, rest⟩
    · rw [sweep_phase] at h
      cases h
      intro i hi nd hnd j hj hjl
      rcases hinv i hi nd hnd j hj hjl with hs | hq
      · exact hs
      · cases hq
    · rw [sweep_phase] at h
      by_cases hn : n ∈ seen
      · rw [if_pos hn] at h
        refine ih g rest seen g' seen' h ?_
        intro i hi nd hnd j hj hjl
        rcases hinv i hi nd hnd j hj hjl with hs | hq
        · exact Or.inl hs
        · rcases List.mem_cons.mp hq with he | hm
          · subst he
            exact Or.inl hn
          · exact Or.inr hm
      · rw [if_neg hn] at h
        rcases hnode : g.node? n with _ | nd
        · rw [hnode] at h
          refine ih g rest seen g' seen' h ?_
          intro i hi nd1 hnd j hj hjl
          rcases hinv i hi nd1 hnd j hj hjl with hs | hq
          · exact Or.inl hs
          · rcases List.mem_cons.mp hq with he | hm
            · subst he
              exact absurd hnode (node?_ne_none_of_lt hjl)
            · exact Or.inr hm
        · rw [hnode] at h
          dsimp only at h
          by_cases hp : n ∈ prot
          · rw [if_pos hp] at h
            refine ih g (rest ++ nd.inputs.filterMap id) (n :: seen) g' seen' h ?_
            intro i hi nd1 hnd j hj hjl
            rcases List.mem_cons.mp hi with he | hm
            · subst he
              rw [hnode] at hnd
              cases hnd
              exact Or.inr (List.mem_append_right _ (List.mem_filterMap.mpr ⟨some j, hj, rfl⟩))
            · rcases hinv i hm nd1 hnd j hj hjl with hs | hq
              · exact Or.inl (List.mem_cons_of_mem n hs)
              · rcases List.mem_cons.mp hq with he2 | hm2
                · subst he2
                  exact Or.inl (List.mem_cons_self j seen)
                · exact Or.inr (List.mem_append_left _ hm2)
          · rw [if_neg hp] at h
            have hinv2 : ∀ i ∈ n :: seen, ∀ nd1 : Node,
                (g.setNode n { nd with value := Tensor.empty, tape := [] }).node? i =
                  some nd1 →
                ∀ j, some j ∈ nd1.inputs →
                  j < (g.setNode n { nd with value := Tensor.empty, tape := [] }).len →
                  (j ∈ n :: seen ∨ j ∈ rest ++ nd.inputs.filterMap id) := by
              intro i hi nd1 hnd j hj hjl
              rcases List.mem_cons.mp hi with he | hm
              · subst he
                rw [node?_setNode_self _ hnode] at hnd
                cases hnd
                exact Or.inr (List.mem_append_right _ (List.mem_filterMap.mpr ⟨some j, hj, rfl⟩))
              · have hin : i ≠ n := fun he => hn (he ▸ hm)
                rw [node?_setNode_ne g _ (fun he => hin he.symm)] at hnd
                have hjl2 : j < g.len := by
                  rw [len_setNode] at hjl
                  exact hjl
                rcases hinv i hm nd1 hnd j hj hjl2 with hs | hq
                · exact Or.inl (List.mem_cons_of_mem n hs)
                · rcases List.mem_cons.mp hq with he2 | hm2
                  · subst he2
                    exact Or.inl (List.mem_cons_self j seen)
                  · exact Or.inr (List.mem_append_left _ hm2)
            have ihc := ih _ _ _ g' seen' h hinv2
            intro i hi nd1 hnd j hj hjl
            by_cases hin : i = n
            · subst hin
              rw [hnode] at hnd
              cases hnd
              refine ihc i hi { nd with value := Tensor.empty, tape := [] }
                (node?_setNode_self _ hnode) j hj ?_
              rw [len_setNode]
              exact hjl
            · refine ihc i hi nd1 ?_ j hj ?_
              · rw [node?_setNode_ne g _ (fun he => hin he.symm)]
                exact hnd
              · rw [len_setNode]
                exact hjl

theorem reaches_lt {g : Graph} {root : Nat} (hw : WFinputs g = true)
    (hroot : root < g.len) : ∀ i, Reaches g root i → i < g.len := by
  intro i hR
  induction hR with
  | refl => exact hroot
  | step hRi nd hnode hinp ih2 => exact wfinputs_spec hw _ nd hnode _ hinp

/-- Claim C4: after `evict_non_checkpoint_values(root)` on a graph with valid
inputs: the root is in the protected set computed by the protect BFS (which
stops at checkpoints), every protected node is completely unchanged — in
particular the root keeps its value; every node reachable from the root that
is outside the protected set ends with an empty value and a cleared tape; and
every node's `saved_input_tensors` (the checkpoint snapshots) are left
unchanged.  The fuel arguments stand for the finitely many iterations the C++
BFS loops perform. -/
theorem evict_non_checkpoint_values_C4 :
    ∀ (fuel : Nat) (g : Graph) (root : Nat) (prot : List Nat) (g' : Graph),
      WFinputs g = true →
      root < g.len →
      protect_phase g fuel [root] [] = some prot →
      evict_non_checkpoint_values fuel g root = some g' →
      ( root ∈ prot
      ∧ (∀ i, i ∈ prot → g'.node? i = g.node? i)
      ∧ (∀ i, Reaches g root i → i ∉ prot →
          ∃ nd', g'.node? i = some nd' ∧ nd'.value = Tensor.empty ∧ nd'.tape = [])
      ∧ (∀ j, (g'.node? j).map Node.saved_input_tensors =
          (g.node? j).map Node.saved_input_tensors) ) := by
  intro fuel g root prot g' hw hroot hprot hev
  obtain ⟨ndr, hndr⟩ := node?_of_lt hroot
  rw [evict_non_checkpoint_values, hndr] at hev
  dsimp only at hev
  rw [hprot] at hev
  dsimp only at hev
  rcases hs : sweep_phase prot fuel g [root] [] with _ | ⟨g2, seen'⟩
  · rw [hs] at hev
    cases hev
  · rw [hs] at hev
    dsimp only at hev
    cases hev
    have hnodes := sweep_phase_nodes prot fuel g [root] [] g' seen' hs
    have hreach : ∀ i, Reaches g root i → i ∈ seen' := by
      intro i hR
      induction hR with
      | refl =>
        exact sweep_phase_queue prot fuel g [root] [] g' seen' hs root
          (List.mem_cons_self root []) hroot
      | step hRi nd hnode hinp ih2 =>
        exact sweep_phase_closure prot fuel g [root] [] g' seen' hs
          (by intro x hx; cases hx) _ ih2 nd hnode _ hinp
          (wfinputs_spec hw _ nd hnode _ hinp)
    refine ⟨protect_phase_queue g fuel [root] [] prot hprot root
      (List.mem_cons_self root []) hroot, ?_, ?_, ?_⟩
    · intro i hi
      exact hnodes.1 i (Or.inl hi)
    · intro i hR hip
      have hi := hreach i hR
      have h2 := hnodes.2 i hip (by intro hc; cases hc) hi
      have hlt := reaches_lt hw hroot i hR
      obtain ⟨nd, hnd⟩ := node?_of_lt hlt
      refine ⟨{ nd with value := Tensor.empty, tape := [] }, ?_, rfl, rfl⟩
      rw [h2, hnd]
      rfl
    · intro j
      by_cases hj : j ∈ prot
      · rw [hnodes.1 j (Or.inl hj)]
      · by_cases hjs : j ∈ seen'
        · have h2 := hnodes.2 j hj (by intro hc; cases hc) hjs
          rw [h2]
          rcases g.node? j with _ | nd
          · rfl
          · rfl
        · rw [hnodes.1 j (Or.inr (Or.inr hjs))]

/-- Witness for C4 at a concrete input: in `gW4` (root 2 consuming
checkpoint 1 consuming leaf 0) the protect BFS yields `[1, 2]`, eviction
yields `gW4e`, the root keeps its node, node 0 is reachable, unprotected,
and ends cleared, and all snapshots are untouched. -/
theorem evict_non_checkpoint_values_C4_witness :
    WFinputs gW4 = true ∧ 2 < gW4.len ∧
    protect_phase gW4 10 [2] [] = some [1, 2] ∧
    evict_non_checkpoint_values 10 gW4 2 = some gW4e ∧
    2 ∈ [1, 2] ∧
    gW4e.node? 2 = gW4.node? 2 ∧
    (∃ nd', gW4e.node? 0 = some nd' ∧ nd'.value = Tensor.empty ∧ nd'.tape = []) ∧
    (gW4e.node? 1).map Node.saved_input_tensors = (gW4.node? 1).map Node.saved_input_tensors := by
  have h := evict_non_checkpoint_values_C4 10 gW4 2 [1, 2] gW4e (by decide) (by decide)
    (by decide) (by decide)
  have hr1 : Reaches gW4 2 1 :=
    Reaches.step Reaches.refl (mkNode 2 [some 1] (Tensor.mk 1 1 [3])) rfl (by decide)
  have hr0 : Reaches gW4 2 0 :=
    Reaches.step hr1 { mkNode 1 [some 0] (Tensor.mk 1 1 [2]) with is_checkpoint := true }
      rfl (by decide)
  exact ⟨by decide, by decide, by decide, by decide, h.1,
    h.2.1 2 (by decide), h.2.2.1 0 hr0 (by decide), h.2.2.2 1⟩

end ag
